import Mathlib

/-!
Verification of the XDB ingestion-and-load engine (`XDB.py`).

This file gives a shallow embedding of the pure parts of the program:
cell values, type detection, identifier sanitization, the column
transformation rules, the chunk reassembly step, and the batched write
loops of the two database backends.  Machine integers are modelled as
`Int`/`Nat`; fallible code returns `Option`/`Except`.

Modelling conventions, stated once:
* Cell values (`PyVal`) cover the null, integer and string cells that the
  classifiers branch on.  Character classes (`\w`, `isalpha`, `upper`,
  `lower`, whitespace) are modelled over the ASCII range plus the CJK
  Unified block `一`-`鿿` that the source names explicitly.
* `int(total * 0.95)` is modelled as `(95 * total) / 100` in `Nat`; the
  two agree for every feasible sample size (the double `0.95` sits less
  than half an ulp below `19/20`, so the product rounds to the exact
  rational's floor for all `total` far beyond any sample bound).
* Python float parsing inside `is_float_value` is modelled with exact
  rationals (`Rat`); the IEEE rounding of `float(...)` is not modelled.
-/

/-! ### Python-style character and string helpers -/

/-- Whitespace characters stripped by Python's `str.strip()` (ASCII part). -/
def isPyWS (c : Char) : Bool :=
  c == ' ' || c == '\t' || c == '\n' || c == '\r' || c == '\x0b' || c == '\x0c'

/-- `str.strip()` on a character list: drop leading and trailing whitespace. -/
def pyStripL (l : List Char) : List Char :=
  ((l.dropWhile isPyWS).reverse.dropWhile isPyWS).reverse

/-- `str.strip()`. -/
def pyStrip (s : String) : String :=
  String.mk (pyStripL s.toList)

/-- `str.upper()` (ASCII). -/
def asciiUpper (s : String) : String :=
  String.mk (s.toList.map Char.toUpper)

/-- `str.lower()` (ASCII). -/
def asciiLower (s : String) : String :=
  String.mk (s.toList.map Char.toLower)

/-- Python's `pattern in text` substring test. -/
def containsSub (pat : List Char) : List Char → Bool
  | [] => pat.isEmpty
  | c :: rest => pat.isPrefixOf (c :: rest) || containsSub pat rest

/-- `str.replace(old, new)` for a nonempty `old` (head `o`, tail `os`):
left-to-right, non-overlapping. -/
def pyReplaceNE (o : Char) (os new : List Char) : List Char → List Char
  | [] => []
  | c :: rest =>
    if (o :: os).isPrefixOf (c :: rest) then
      new ++ pyReplaceNE o os new (rest.drop os.length)
    else
      c :: pyReplaceNE o os new rest
termination_by l => l.length
decreasing_by
  all_goals simp only [List.length_cons, List.length_drop]
  all_goals omega

/-- `str.replace("", new)`: Python inserts `new` at every position. -/
def pyReplaceEmpty (new : List Char) : List Char → List Char
  | [] => new
  | c :: rest => new ++ c :: pyReplaceEmpty new rest

/-- `str.replace(old, new)`. -/
def pyReplace (s old new : String) : String :=
  match old.toList with
  | [] => String.mk (pyReplaceEmpty new.toList s.toList)
  | o :: os => String.mk (pyReplaceNE o os new.toList s.toList)

/-- `s.split(sep, 1)`: the part before the first `sep`, and (when `sep`
occurs) the remainder after it. -/
def splitOnceL (sep : Char) : List Char → List Char × Option (List Char)
  | [] => ([], none)
  | c :: rest =>
    if c == sep then ([], some rest)
    else
      let p := splitOnceL sep rest
      (c :: p.1, p.2)

/-- `s.split(sep, 1)` on strings. -/
def splitOnce (sep : Char) (s : String) : String × Option String :=
  let p := splitOnceL sep s.toList
  (String.mk p.1, p.2.map String.mk)

/-! ### Cell values

A cell of the source file as the engine sees it: null, a Python `int`
(arbitrary precision) or a string. -/

inductive PyVal where
  | vNone : PyVal
  | vInt (n : Int) : PyVal
  | vStr (s : String) : PyVal
deriving DecidableEq, Repr

/-- Python `str(value)` for the modelled cell values. -/
def pyStr : PyVal → String
  | .vNone => "None"
  | .vInt n => toString n
  | .vStr s => s

/-- A normalized output row. -/
abbrev Row := List PyVal

/-- Python `max()` of a list of naturals (used only on nonempty lists). -/
def pyMaxNat (l : List Nat) : Nat := l.foldl max 0

/-- `is_nan_or_empty` (XDB.py line 167): null, blank string, or one of the
pandas null spellings. -/
def is_nan_or_empty : PyVal → Bool
  | .vNone => true
  | .vStr s => (pyStrip s).isEmpty || asciiLower s == "nan" || asciiLower s == "none"
      || asciiLower s == "null"
  | .vInt _ => false

/-! ### `apply_column_transformation` (XDB.py line 2338)

The `date_format` rule parses with `datetime.strptime(_, "%Y-%m-%d")` and
re-formats with `strftime`; both stdlib routines are modelled below.  The
`replace` rule with no comma in its argument raises `ValueError` in
Python, so the embedding returns `Except`. -/

/-- Days in a month, with the Gregorian leap rule (as `datetime` validates). -/
def daysInMonth (y m : Nat) : Nat :=
  if m == 2 then
    if y % 4 == 0 && (y % 100 != 0 || y % 400 == 0) then 29 else 28
  else if m == 4 || m == 6 || m == 9 || m == 11 then 30
  else 31

/-- Parse a decimal digit string. -/
def digitsToNat? (l : List Char) : Option Nat :=
  if l.isEmpty || !l.all Char.isDigit then none
  else some (l.foldl (fun n c => n * 10 + (c.toNat - 48)) 0)

/-- `datetime.strptime(s, "%Y-%m-%d")`: a 4-digit year, then month and day
of 1-2 digits each, all validated. -/
def strptimeYMD (s : String) : Option (Nat × Nat × Nat) :=
  match s.splitOn "-" with
  | [ys, ms, ds] =>
    if ys.toList.length == 4 && ms.toList.length ≥ 1 && ms.toList.length ≤ 2
        && ds.toList.length ≥ 1 && ds.toList.length ≤ 2 then
      match digitsToNat? ys.toList, digitsToNat? ms.toList, digitsToNat? ds.toList with
      | some y, some m, some d =>
        if 1 ≤ m && m ≤ 12 && 1 ≤ d && d ≤ daysInMonth y m then some (y, m, d) else none
      | _, _, _ => none
    else none
  | _ => none

/-- Zero-pad a number to `w` digits. -/
def padNum (w n : Nat) : List Char :=
  let ds := (toString n).toList
  List.replicate (w - ds.length) '0' ++ ds

/-- `datetime.strftime` over the date directives the engine's date values
can carry (time-of-day is always midnight after a `%Y-%m-%d` parse). -/
def strftimeYMD (d : Nat × Nat × Nat) : List Char → List Char
  | [] => []
  | '%' :: c :: rest =>
    (if c == 'Y' then padNum 4 d.1
     else if c == 'm' then padNum 2 d.2.1
     else if c == 'd' then padNum 2 d.2.2
     else if c == 'H' || c == 'M' || c == 'S' then padNum 2 0
     else if c == '%' then ['%']
     else ['%', c]) ++ strftimeYMD d rest
  | c :: rest => c :: strftimeYMD d rest

/-- `apply_column_transformation(excel_value, transform_rule)`. -/
def apply_column_transformation (excel_value : PyVal) (transform_rule : String) :
    Except String PyVal :=
  if transform_rule.isEmpty || excel_value == PyVal.vNone then .ok excel_value
  else
    let parts := splitOnce ':' transform_rule
    let ruleName := asciiLower parts.1
    if ruleName == "uppercase" then .ok (.vStr (asciiUpper (pyStr excel_value)))
    else if ruleName == "lowercase" then .ok (.vStr (asciiLower (pyStr excel_value)))
    else if ruleName == "trim" then .ok (.vStr (pyStrip (pyStr excel_value)))
    else if ruleName == "prefix" && parts.2.isSome then
      .ok (.vStr ((parts.2.getD "") ++ pyStr excel_value))
    else if ruleName == "suffix" && parts.2.isSome then
      .ok (.vStr (pyStr excel_value ++ (parts.2.getD "")))
    else if ruleName == "replace" && parts.2.isSome then
      match splitOnce ',' (parts.2.getD "") with
      | (old, some new) => .ok (.vStr (pyReplace (pyStr excel_value) old new))
      | (_, none) => .error "ValueError: not enough values to unpack"
    else if ruleName == "date_format" && parts.2.isSome then
      match strptimeYMD (pyStr excel_value) with
      | some d => .ok (.vStr (String.mk (strftimeYMD d (parts.2.getD "").toList)))
      | none => .ok excel_value
    else .ok excel_value

/-- C10: `apply_column_transformation` preserves null for every rule string,
known or unknown: the null guard returns the value before any rule parsing. -/
theorem apply_column_transformation_null (r : String) :
    apply_column_transformation PyVal.vNone r = .ok PyVal.vNone := by
  unfold apply_column_transformation
  simp

/-! ### `process_chunk` (XDB.py lines 834-998)

The worker reads its row window, then transforms it with the vectorized
path, falling back to the per-row path when that raises; the outermost
`except` turns any remaining failure into `(chunk_id, [])`.  The
side-effecting stages (pandas reads, the two transform paths) are
parameters of the embedding; the embedding itself is the worker's
exception-handling skeleton. -/

/-- `process_chunk`: outer `try` around the source read and both transform
paths; inner `try` degrades from the vectorized path to the per-row
fallback; any failure left over yields the chunk id with zero rows. -/
def process_chunk (chunk_id : Nat) (readSrc : Except String (List Row))
    (vectorized : List Row → Except String (List Row))
    (row_fallback : List Row → Except String (List Row)) : Nat × List Row :=
  match readSrc with
  | .error _ => (chunk_id, [])
  | .ok df =>
    match vectorized df with
    | .ok processed => (chunk_id, processed)
    | .error _ =>
      match row_fallback df with
      | .ok processed => (chunk_id, processed)
      | .error _ => (chunk_id, [])

/-- C7: when the chunk cannot be processed (the read fails, or both the
vectorized path and the per-row fallback fail), `process_chunk` returns
`(chunk_id, [])` instead of propagating the exception, so the chunk
contributes zero rows and the sheet load continues. -/
theorem process_chunk_failure_zero_rows (chunk_id : Nat)
    (readSrc : Except String (List Row))
    (vectorized row_fallback : List Row → Except String (List Row))
    (h : ∀ df, readSrc = Except.ok df →
      (∃ e, vectorized df = Except.error e) ∧ (∃ e, row_fallback df = Except.error e)) :
    process_chunk chunk_id readSrc vectorized row_fallback = (chunk_id, []) := by
  rcases hr : readSrc with e | df
  · simp [process_chunk, hr]
  · obtain ⟨⟨e₁, hv⟩, ⟨e₂, hf⟩⟩ := h df hr
    simp [process_chunk, hr, hv, hf]

/-- Witness for C7: a failing read yields the chunk id with zero rows. -/
theorem process_chunk_failure_zero_rows_witness :
    process_chunk 7 (Except.error "read failed")
      (fun df => Except.ok df) (fun df => Except.ok df) = (7, []) :=
  process_chunk_failure_zero_rows 7 (Except.error "read failed") _ _
    (fun df hdf => by cases hdf)

/-! ### Value classifiers (XDB.py lines 351-419)

`is_integer_value`, `is_float_value`, `is_date_value`, faithful to the
source's regexes and range checks over the modelled cell values. -/

/-- Digits with optional single interior underscores, as Python's `int()`
accepts (`"1_000"` parses, `"1__0"`, `"_1"`, `"1_"` do not). -/
def digitsUGo (acc : Nat) : List Char → Option Nat
  | [] => some acc
  | '_' :: d :: rest =>
    if d.isDigit then digitsUGo (acc * 10 + (d.toNat - 48)) rest else none
  | '_' :: [] => none
  | d :: rest =>
    if d.isDigit then digitsUGo (acc * 10 + (d.toNat - 48)) rest else none

/-- Parse a nonempty underscore-grouped digit string. -/
def digitsUVal : List Char → Option Nat
  | [] => none
  | c :: rest => if c.isDigit then digitsUGo (c.toNat - 48) rest else none

/-- Python `int(s)` on an already-stripped string (ASCII digits). -/
def pyParseInt : List Char → Option Int
  | '+' :: rest => (digitsUVal rest).map Int.ofNat
  | '-' :: rest => (digitsUVal rest).map (fun n => -(n : Int))
  | l => (digitsUVal l).map Int.ofNat

/-- `is_integer_value` (XDB.py line 351): a 64-bit-range int, or a string
of at most 20 characters that parses to one. -/
def is_integer_value : PyVal → Bool
  | .vInt n => decide (-(2 ^ 63 : Int) ≤ n ∧ n ≤ 2 ^ 63 - 1)
  | .vStr s =>
    let t := pyStripL s.toList
    if 20 < t.length then false
    else
      match pyParseInt t with
      | some m => decide (-(2 ^ 63 : Int) ≤ m ∧ m ≤ 2 ^ 63 - 1)
      | none => false
  | .vNone => false

/-- The parsed shape of the float regex
`^[-+]?(\d+\.?\d*|\.\d+)([eE][-+]?\d+)?$`: sign, integer digits,
fraction digits, exponent. -/
structure FloatParts where
  neg : Bool
  intPart : List Char
  fracPart : List Char
  exp : Int
deriving Repr

/-- Parse the optional `[eE][-+]?\d+$` suffix. -/
def parseExpPart : List Char → Option Int
  | [] => some 0
  | e :: rest =>
    if e == 'e' || e == 'E' then
      match rest with
      | '+' :: ds => if !ds.isEmpty && ds.all Char.isDigit then
          (digitsToNat? ds).map Int.ofNat else none
      | '-' :: ds => if !ds.isEmpty && ds.all Char.isDigit then
          (digitsToNat? ds).map (fun n => -(n : Int)) else none
      | ds => if !ds.isEmpty && ds.all Char.isDigit then
          (digitsToNat? ds).map Int.ofNat else none
    else none

/-- Deterministic parser equivalent to the float regex; `none` when the
regex does not match. -/
def parseFloatParts (l : List Char) : Option FloatParts :=
  let signAndRest : Bool × List Char :=
    match l with
    | '+' :: r => (false, r)
    | '-' :: r => (true, r)
    | r => (false, r)
  let body := signAndRest.2
  let d1 := body.takeWhile Char.isDigit
  let r1 := body.dropWhile Char.isDigit
  if d1.isEmpty then
    match body with
    | '.' :: r2 =>
      let d2 := r2.takeWhile Char.isDigit
      let r3 := r2.dropWhile Char.isDigit
      if d2.isEmpty then none
      else (parseExpPart r3).map (fun e => ⟨signAndRest.1, [], d2, e⟩)
    | _ => none
  else
    match r1 with
    | '.' :: r2 =>
      let d2 := r2.takeWhile Char.isDigit
      let r3 := r2.dropWhile Char.isDigit
      (parseExpPart r3).map (fun e => ⟨signAndRest.1, d1, d2, e⟩)
    | _ => (parseExpPart r1).map (fun e => ⟨signAndRest.1, d1, [], e⟩)

/-- Decimal value of a digit list. -/
def digitsVal (l : List Char) : Nat :=
  l.foldl (fun n c => n * 10 + (c.toNat - 48)) 0

/-- The exact rational value of parsed float parts. -/
def ratOfParts (p : FloatParts) : ℚ :=
  let mantissa : ℚ :=
    (digitsVal p.intPart : ℚ) + (digitsVal p.fracPart : ℚ) / (10 : ℚ) ^ p.fracPart.length
  let signed := if p.neg then -mantissa else mantissa
  signed * (10 : ℚ) ^ p.exp

/-- `value.rstrip('0').endswith('.')`. -/
def endsDotAfterRstripZeros (l : List Char) : Bool :=
  match l.reverse.dropWhile (fun c => c == '0') with
  | '.' :: _ => true
  | _ => false

/-- `is_float_value` (XDB.py line 369): regex-gated float strings that are
not integer-valued; Python's IEEE `float()` is modelled by the exact
rational value (see the header note). -/
def is_float_value : PyVal → Bool
  | .vInt _ => false
  | .vNone => false
  | .vStr s =>
    let t := pyStripL s.toList
    match parseFloatParts t with
    | none => false
    | some parts =>
      if t.contains '.' || t.contains 'e' || t.contains 'E' then
        let q := ratOfParts parts
        if (2 ^ 53 : ℚ) < |q| then t.contains '.' && !endsDotAfterRstripZeros t
        else !(q.den == 1)
      else false

/-- Tokens of the date regexes: a bounded digit run, a literal character,
or a fixed-width `\w` run. -/
inductive DTok where
  | digits (lo hi : Nat) : DTok
  | lit (c : Char) : DTok
  | wordChars (n : Nat) : DTok

/-- The CJK Unified block `一`-`鿿` the source names explicitly. -/
def isCJK (c : Char) : Bool :=
  0x4e00 ≤ c.toNat && c.toNat ≤ 0x9fff

/-- `\w` of the source's regexes over the modelled character ranges. -/
def pyIsWordChar (c : Char) : Bool :=
  c.isAlphanum || c == '_' || isCJK c

/-- Match an anchored token sequence against the whole character list
(with backtracking over the digit-run widths). -/
def matchToks : List DTok → List Char → Bool
  | [], l => l.isEmpty
  | DTok.lit c :: ts, l =>
    match l with
    | x :: xs => x == c && matchToks ts xs
    | [] => false
  | DTok.wordChars n :: ts, l =>
    (l.take n).length == n && (l.take n).all pyIsWordChar && matchToks ts (l.drop n)
  | DTok.digits lo hi :: ts, l =>
    (List.range (hi + 1 - lo)).any (fun d =>
      let k := lo + d
      (l.take k).length == k && (l.take k).all Char.isDigit && matchToks ts (l.drop k))

/-- The nine date regexes of `is_date_value` (XDB.py lines 403-413). -/
def date_patterns : List (List DTok) :=
  [ [.digits 4 4, .lit '-', .digits 1 2, .lit '-', .digits 1 2],
    [.digits 1 2, .lit '/', .digits 1 2, .lit '/', .digits 4 4],
    [.digits 4 4, .lit '/', .digits 1 2, .lit '/', .digits 1 2],
    [.digits 1 2, .lit '-', .digits 1 2, .lit '-', .digits 4 4],
    [.digits 4 4, .lit '-', .digits 1 2, .lit '-', .digits 1 2, .lit ' ',
      .digits 1 2, .lit ':', .digits 2 2, .lit ':', .digits 2 2],
    [.digits 1 2, .lit '/', .digits 1 2, .lit '/', .digits 4 4, .lit ' ',
      .digits 1 2, .lit ':', .digits 2 2, .lit ':', .digits 2 2],
    [.digits 8 8],
    [.digits 1 2, .lit '-', .wordChars 3, .lit '-', .digits 4 4],
    [.wordChars 3, .lit ' ', .digits 1 2, .lit ',', .lit ' ', .digits 4 4] ]

/-- `is_date_value` (XDB.py line 395): a string matching one of the nine
date regexes after stripping. -/
def is_date_value : PyVal → Bool
  | .vStr s => date_patterns.any (fun p => matchToks p (pyStripL s.toList))
  | _ => false

/-! ### `detect_column_types` (XDB.py lines 421-522) -/

/-- The two backend dialects. -/
inductive DbType where
  | sqlite : DbType
  | mysql : DbType
deriving DecidableEq, Repr

/-- The default text type of a dialect. -/
def defaultTextType : DbType → String
  | .sqlite => "TEXT"
  | .mysql => "VARCHAR(255)"

/-- The boolean token set `('true','false','0','1','yes','no')`. -/
def isBoolToken (v : PyVal) : Bool :=
  ["true", "false", "0", "1", "yes", "no"].contains (asciiLower (pyStr v))

/-- Whether a value is a string instance (`isinstance(x, str)`). -/
def isStrVal : PyVal → Bool
  | .vStr _ => true
  | _ => false

/-- The non-null, non-blank sample values of one column. -/
def nonEmptyVals (column_data : List PyVal) : List PyVal :=
  column_data.filter (fun x => !(x == PyVal.vNone) && !(pyStrip (pyStr x)).isEmpty)

/-- Classification counters of one column, mirroring the single-pass loop:
the `elif` chain never double-counts, the long-text check is independent. -/
def intCount (ne : List PyVal) : Nat := (ne.filter is_integer_value).length

def floatCount (ne : List PyVal) : Nat :=
  (ne.filter (fun x => !is_integer_value x && is_float_value x)).length

def dateCount (ne : List PyVal) : Nat :=
  (ne.filter (fun x => !is_integer_value x && !is_float_value x && is_date_value x)).length

def boolCount (ne : List PyVal) : Nat :=
  (ne.filter (fun x => !is_integer_value x && !is_float_value x && !is_date_value x
    && isBoolToken x)).length

def longTextCount (ne : List PyVal) : Nat :=
  (ne.filter (fun x => isStrVal x && 255 < (pyStr x).length)).length

/-- `max_str_length` over the non-empty values. -/
def maxStrLength (ne : List PyVal) : Nat :=
  pyMaxNat (ne.map (fun x => (pyStr x).length))

/-- The 95%-consistency threshold `max(1, int(total_values * 0.95))`
(see the header note on the float model). -/
def consistencyThreshold (total : Nat) : Nat := max 1 ((95 * total) / 100)

/-- Type decision for one column of the sample (the body of the per-column
loop of `detect_column_types`). -/
def detect_one_column (db : DbType) (pk : Bool) (i : Nat)
    (column_data : List PyVal) : String :=
  let ne := nonEmptyVals column_data
  if ne.isEmpty then defaultTextType db
  else
    let th := consistencyThreshold ne.length
    if th ≤ intCount ne then
      match db with
      | .sqlite => if i == 0 && pk then "INTEGER PRIMARY KEY" else "INTEGER"
      | .mysql => if i == 0 && pk then "INT AUTO_INCREMENT PRIMARY KEY" else "INT"
    else if th ≤ floatCount ne then
      match db with
      | .sqlite => "REAL"
      | .mysql => "DOUBLE"
    else if th ≤ dateCount ne then
      match db with
      | .sqlite => "DATE"
      | .mysql => "DATETIME"
    else if th ≤ boolCount ne then
      match db with
      | .sqlite => "BOOLEAN"
      | .mysql => "TINYINT(1)"
    else if 0 < longTextCount ne then "TEXT"
    else
      match db with
      | .sqlite => "TEXT"
      | .mysql => "VARCHAR(" ++ toString (min (max (maxStrLength ne + 50) 100) 255) ++ ")"

/-- The non-null first-column sample values (XDB.py lines 431-434). -/
def first_col_values (sample_data : List (List PyVal)) : List PyVal :=
  sample_data.filterMap (fun row =>
    match row with
    | [] => none
    | v :: _ => if v == PyVal.vNone then none else some v)

/-- `is_potential_pk`: the first-column values are pairwise distinct and at
least one exists (XDB.py lines 435-436). -/
def is_potential_pk (sample_data : List (List PyVal)) : Bool :=
  decide (first_col_values sample_data).Nodup
    && !(first_col_values sample_data).isEmpty

/-- The widest row of the sample (`max_cols`), 0 when no nonempty row. -/
def maxColsOf (sample_data : List (List PyVal)) : Nat :=
  pyMaxNat ((sample_data.filter (fun r => !r.isEmpty)).map List.length)

/-- Column `i` of the transposed sample: the non-null values at index `i`
of every row that reaches it. -/
def columnAt (sample_data : List (List PyVal)) (i : Nat) : List PyVal :=
  sample_data.filterMap (fun row =>
    match row.get? i with
    | some v => if v == PyVal.vNone then none else some v
    | none => none)

/-- The per-column decisions for the sample's `max_cols` columns. -/
def detected_columns (sample_data : List (List PyVal)) (db_type : DbType) :
    List String :=
  (List.range (maxColsOf sample_data)).map
    (fun i => detect_one_column db_type (is_potential_pk sample_data) i
      (columnAt sample_data i))

/-- `detect_column_types(sample_data, headers, db_type)`. -/
def detect_column_types (sample_data : List (List PyVal)) (headers : List String)
    (db_type : DbType) : List String :=
  if sample_data.isEmpty || headers.isEmpty then
    List.replicate headers.length (defaultTextType db_type)
  else if (sample_data.filter (fun r => !r.isEmpty)).isEmpty then
    List.replicate headers.length (defaultTextType db_type)
  else
    detected_columns sample_data db_type ++
      List.replicate (headers.length - (detected_columns sample_data db_type).length)
        (defaultTextType db_type)

/-! ### Theorems about `detect_column_types` -/

/-- Every element of a list bounds `pyMaxNat` from below. -/
theorem le_pyMaxNat_of_mem {l : List Nat} {a : Nat} (h : a ∈ l) : a ≤ pyMaxNat l := by
  suffices H : ∀ (l : List Nat) (b : Nat), b ≤ l.foldl max b ∧
      ∀ a ∈ l, a ≤ l.foldl max b by
    exact (H l 0).2 a h
  intro l
  induction l with
  | nil => intro b; exact ⟨Nat.le_refl b, by simp⟩
  | cons x xs ih =>
    intro b
    refine ⟨?_, ?_⟩
    · calc b ≤ max b x := Nat.le_max_left b x
        _ ≤ xs.foldl max (max b x) := (ih (max b x)).1
    · intro a ha
      rcases List.mem_cons.mp ha with rfl | ha
      · calc a ≤ max b a := Nat.le_max_right b a
          _ ≤ xs.foldl max (max b a) := (ih (max b a)).1
      · exact (ih (max b x)).2 a ha

/-- C4 counterexample: a sample row wider than the header list makes the
output longer than the header list. -/
theorem detect_column_types_length_counterexample :
    (detect_column_types [[PyVal.vInt 1, PyVal.vInt 2]] ["a"] DbType.sqlite).length
      ≠ (["a"] : List String).length := by decide

/-- C4 amended: for a nonempty header list the output length is the
maximum of the header count and the widest sample row (so it equals the
header count whenever no sampled row is wider than the headers, narrower
samples being padded with the default text type); an empty sample yields
the default text type for every header. -/
theorem detect_column_types_length (sample_data : List (List PyVal))
    (headers : List String) (db_type : DbType) (hh : headers ≠ []) :
    (detect_column_types sample_data headers db_type).length
        = max (maxColsOf sample_data) headers.length
      ∧ (sample_data = [] →
          detect_column_types sample_data headers db_type
            = List.replicate headers.length (defaultTextType db_type)) := by
  constructor
  · unfold detect_column_types
    by_cases h1 : sample_data.isEmpty || headers.isEmpty
    · have hs : sample_data = [] := by
        rcases Bool.or_eq_true _ _ |>.mp h1 with h | h
        · exact List.isEmpty_iff.mp h
        · exact absurd (List.isEmpty_iff.mp h) hh
      subst hs
      simp [maxColsOf, pyMaxNat]
    · simp only [if_neg h1]
      by_cases h2 : (sample_data.filter (fun r => !r.isEmpty)).isEmpty
      · have hm : maxColsOf sample_data = 0 := by
          unfold maxColsOf
          rw [List.isEmpty_iff.mp h2]
          rfl
        simp [h2, hm]
      · simp only [if_neg h2, detected_columns, List.length_append, List.length_map,
          List.length_range, List.length_replicate]
        omega
  · intro hs
    subst hs
    unfold detect_column_types
    simp

/-- Witness for C4: one header, sample rows of widths 1 and 2; the output
length is `max 2 1 = 2`. -/
theorem detect_column_types_length_witness :
    (["a"] : List String) ≠ [] ∧
    ((detect_column_types [[PyVal.vInt 1], [PyVal.vInt 2, PyVal.vInt 3]] ["a"]
          DbType.sqlite).length
        = max (maxColsOf [[PyVal.vInt 1], [PyVal.vInt 2, PyVal.vInt 3]])
            (["a"] : List String).length
      ∧ (([[PyVal.vInt 1], [PyVal.vInt 2, PyVal.vInt 3]] : List (List PyVal)) = [] →
          detect_column_types [[PyVal.vInt 1], [PyVal.vInt 2, PyVal.vInt 3]] ["a"]
              DbType.sqlite
            = List.replicate (["a"] : List String).length (defaultTextType DbType.sqlite))) :=
  ⟨by decide, detect_column_types_length _ _ _ (by decide)⟩

/-- A string starting with `VARCHAR(` differs from any string whose first
character is not `V`. -/
theorem varchar_append_ne (t u s : String) (h : s.data.head? ≠ some 'V') :
    "VARCHAR(" ++ t ++ u ≠ s := by
  intro he
  apply h
  rw [← he, String.data_append, String.data_append]
  rfl

/-- A column result is a bounded or unbounded text type. -/
def isTextType (s : String) : Prop :=
  s = "TEXT" ∨ ∃ n : Nat, s = "VARCHAR(" ++ toString n ++ ")"

/-- A string starting with `V` is not a member of a list of strings none
of which starts with `V`. -/
theorem head_v_not_mem (t : String) (l : List String)
    (ht : t.data.head? = some 'V') (hl : ∀ s ∈ l, s.data.head? ≠ some 'V') :
    t ∉ l := fun hm => hl t hm ht

/-- C3 counterexample: a column of 10 non-empty values of which only 9
(90%, below 95%) are integers is still typed `INTEGER`, because the code's
threshold is `max(1, int(total * 0.95)) = 9`. -/
theorem detect_threshold_counterexample :
    (detect_column_types
        [[PyVal.vInt 1], [PyVal.vInt 1], [PyVal.vInt 2], [PyVal.vInt 3], [PyVal.vInt 4],
         [PyVal.vInt 5], [PyVal.vInt 6], [PyVal.vInt 7], [PyVal.vInt 8], [PyVal.vStr "abc"]]
        ["a"] DbType.sqlite = ["INTEGER"])
    ∧ 100 * intCount (nonEmptyVals (columnAt
        [[PyVal.vInt 1], [PyVal.vInt 1], [PyVal.vInt 2], [PyVal.vInt 3], [PyVal.vInt 4],
         [PyVal.vInt 5], [PyVal.vInt 6], [PyVal.vInt 7], [PyVal.vInt 8], [PyVal.vStr "abc"]]
        0))
      < 95 * (nonEmptyVals (columnAt
        [[PyVal.vInt 1], [PyVal.vInt 1], [PyVal.vInt 2], [PyVal.vInt 3], [PyVal.vInt 4],
         [PyVal.vInt 5], [PyVal.vInt 6], [PyVal.vInt 7], [PyVal.vInt 8], [PyVal.vStr "abc"]]
        0)).length := by decide

/-- C3 amended: a scalar type is assigned to a column only if that
category's count among the non-empty sampled values reaches the code's
threshold `max(1, ⌊0.95 * total⌋)` (which can sit below a true 95% of the
total); when no category reaches the threshold the column falls through
to a text type. -/
theorem detect_one_column_threshold (db : DbType) (pk : Bool) (i : Nat)
    (col : List PyVal) :
    (detect_one_column db pk i col ∈
        ["INTEGER PRIMARY KEY", "INTEGER", "INT AUTO_INCREMENT PRIMARY KEY", "INT"] →
      consistencyThreshold (nonEmptyVals col).length ≤ intCount (nonEmptyVals col))
    ∧ (detect_one_column db pk i col ∈ ["REAL", "DOUBLE"] →
      consistencyThreshold (nonEmptyVals col).length ≤ floatCount (nonEmptyVals col))
    ∧ (detect_one_column db pk i col ∈ ["DATE", "DATETIME"] →
      consistencyThreshold (nonEmptyVals col).length ≤ dateCount (nonEmptyVals col))
    ∧ (detect_one_column db pk i col ∈ ["BOOLEAN", "TINYINT(1)"] →
      consistencyThreshold (nonEmptyVals col).length ≤ boolCount (nonEmptyVals col))
    ∧ (intCount (nonEmptyVals col) < consistencyThreshold (nonEmptyVals col).length →
       floatCount (nonEmptyVals col) < consistencyThreshold (nonEmptyVals col).length →
       dateCount (nonEmptyVals col) < consistencyThreshold (nonEmptyVals col).length →
       boolCount (nonEmptyVals col) < consistencyThreshold (nonEmptyVals col).length →
       isTextType (detect_one_column db pk i col)) := by
  cases db <;>
  · simp only [detect_one_column]
    by_cases hne : (nonEmptyVals col).isEmpty = true
    · rw [if_pos hne]
      exact ⟨fun h => absurd h (by decide), fun h => absurd h (by decide),
        fun h => absurd h (by decide), fun h => absurd h (by decide),
        fun _ _ _ _ => by first
          | exact Or.inl rfl
          | exact Or.inr ⟨255, by decide⟩⟩
    · rw [if_neg hne]
      by_cases h1 : consistencyThreshold (nonEmptyVals col).length ≤ intCount (nonEmptyVals col)
      · rw [if_pos h1]
        by_cases hp : (i == 0 && pk) = true
        · rw [if_pos hp]
          exact ⟨fun _ => h1, fun h => absurd h (by decide), fun h => absurd h (by decide),
            fun h => absurd h (by decide), fun hk _ _ _ => absurd h1 (Nat.not_le.mpr hk)⟩
        · rw [if_neg hp]
          exact ⟨fun _ => h1, fun h => absurd h (by decide), fun h => absurd h (by decide),
            fun h => absurd h (by decide), fun hk _ _ _ => absurd h1 (Nat.not_le.mpr hk)⟩
      · rw [if_neg h1]
        by_cases h2 : consistencyThreshold (nonEmptyVals col).length
            ≤ floatCount (nonEmptyVals col)
        · rw [if_pos h2]
          exact ⟨fun h => absurd h (by decide), fun _ => h2, fun h => absurd h (by decide),
            fun h => absurd h (by decide), fun _ hk _ _ => absurd h2 (Nat.not_le.mpr hk)⟩
        · rw [if_neg h2]
          by_cases h3 : consistencyThreshold (nonEmptyVals col).length
              ≤ dateCount (nonEmptyVals col)
          · rw [if_pos h3]
            exact ⟨fun h => absurd h (by decide), fun h => absurd h (by decide), fun _ => h3,
              fun h => absurd h (by decide), fun _ _ hk _ => absurd h3 (Nat.not_le.mpr hk)⟩
          · rw [if_neg h3]
            by_cases h4 : consistencyThreshold (nonEmptyVals col).length
                ≤ boolCount (nonEmptyVals col)
            · rw [if_pos h4]
              exact ⟨fun h => absurd h (by decide), fun h => absurd h (by decide),
                fun h => absurd h (by decide), fun _ => h4,
                fun _ _ _ hk => absurd h4 (Nat.not_le.mpr hk)⟩
            · rw [if_neg h4]
              by_cases h5 : 0 < longTextCount (nonEmptyVals col)
              · rw [if_pos h5]
                exact ⟨fun h => absurd h (by decide), fun h => absurd h (by decide),
                  fun h => absurd h (by decide), fun h => absurd h (by decide),
                  fun _ _ _ _ => Or.inl rfl⟩
              · rw [if_neg h5]
                first
                  | exact ⟨fun h => absurd h (by decide), fun h => absurd h (by decide),
                      fun h => absurd h (by decide), fun h => absurd h (by decide),
                      fun _ _ _ _ => Or.inl rfl⟩
                  | refine ⟨?_, ?_, ?_, ?_, fun _ _ _ _ => Or.inr ⟨_, rfl⟩⟩ <;>
                      · intro h
                        have hv : ("VARCHAR(" ++
                            toString (min (max (maxStrLength (nonEmptyVals col) + 50) 100) 255)
                            ++ ")").data.head? = some 'V' := by
                          rw [String.data_append, String.data_append]
                          rfl
                        exact absurd h (head_v_not_mem _ _ hv (by decide))

/-- A primary-key variant can only come out of the integer branch of the
per-column decision, with `i = 0` and the pk flag set. -/
theorem detect_one_column_pk_shape (db : DbType) (pk : Bool) (i : Nat)
    (col : List PyVal)
    (h : detect_one_column db pk i col
      ∈ ["INTEGER PRIMARY KEY", "INT AUTO_INCREMENT PRIMARY KEY"]) :
    (i == 0 && pk) = true
    ∧ consistencyThreshold (nonEmptyVals col).length ≤ intCount (nonEmptyVals col) := by
  cases db <;>
  · simp only [detect_one_column] at h
    split_ifs at h with hne h1 hp h2 h3 h4 h5
    case _ => exact absurd h (by decide)
    case _ => exact ⟨hp, h1⟩
    case _ => exact absurd h (by decide)
    case _ => exact absurd h (by decide)
    case _ => exact absurd h (by decide)
    case _ => exact absurd h (by decide)
    case _ => exact absurd h (by decide)
    case _ =>
      first
        | exact absurd h (by decide)
        | · have hv : ("VARCHAR(" ++
              toString (min (max (maxStrLength (nonEmptyVals col) + 50) 100) 255)
              ++ ")").data.head? = some 'V' := by
              rw [String.data_append, String.data_append]
              rfl
            exact absurd h (head_v_not_mem _ _ hv (by decide))

/-- `head?` of a padded detection list: with at least one sample column,
it is the decision for column 0. -/
theorem detect_column_types_head (sample_data : List (List PyVal))
    (headers : List String) (db : DbType)
    (hvalid : ¬(sample_data.filter (fun r => !r.isEmpty)).isEmpty = true)
    (hs : ¬(sample_data.isEmpty || headers.isEmpty) = true) :
    (detect_column_types sample_data headers db).head?
      = some (detect_one_column db (is_potential_pk sample_data) 0
          (columnAt sample_data 0)) := by
  unfold detect_column_types
  rw [if_neg hs, if_neg hvalid]
  obtain ⟨k, hk⟩ : ∃ k, maxColsOf sample_data = k + 1 := by
    have hpos : 0 < maxColsOf sample_data := by
      have hne : sample_data.filter (fun r => !r.isEmpty) ≠ [] := by
        intro hc
        exact hvalid (by simp [hc])
      obtain ⟨r, hr⟩ := List.exists_mem_of_ne_nil _ hne
      have hrne : (!r.isEmpty) = true := (List.mem_filter.mp hr).2
      have hr1 : 1 ≤ r.length := by
        cases r with
        | nil => simp at hrne
        | cons a as => simp
      have hmem : r.length ∈ (sample_data.filter (fun r => !r.isEmpty)).map List.length :=
        List.mem_map_of_mem List.length hr
      exact Nat.lt_of_lt_of_le hr1 (le_pyMaxNat_of_mem hmem)
    exact ⟨maxColsOf sample_data - 1, by omega⟩
  unfold detected_columns
  rw [hk, List.range_succ_eq_map, List.map_cons, List.cons_append, List.head?_cons]

/-- C5: the first returned type is a primary-key/auto-increment variant
only if the non-null first-column sample values are pairwise distinct and
nonempty (`is_potential_pk`), and only when the integer count of column 0
reaches the consistency threshold. -/
theorem detect_pk_only_if (sample_data : List (List PyVal)) (headers : List String)
    (db : DbType) (t : String)
    (ht : (detect_column_types sample_data headers db).head? = some t)
    (hpk : t ∈ ["INTEGER PRIMARY KEY", "INT AUTO_INCREMENT PRIMARY KEY"]) :
    (first_col_values sample_data).Nodup
    ∧ first_col_values sample_data ≠ []
    ∧ consistencyThreshold (nonEmptyVals (columnAt sample_data 0)).length
        ≤ intCount (nonEmptyVals (columnAt sample_data 0)) := by
  have hdflt : ∀ n : Nat, (List.replicate n (defaultTextType db)).head? = some t → False := by
    intro n hn
    cases n with
    | zero => simp at hn
    | succ m =>
      simp only [List.replicate, List.head?_cons, Option.some.injEq] at hn
      rw [← hn] at hpk
      cases db <;> exact absurd hpk (by decide)
  by_cases hs : (sample_data.isEmpty || headers.isEmpty) = true
  · exfalso
    apply hdflt headers.length
    rw [← ht]
    unfold detect_column_types
    rw [if_pos hs]
  · by_cases hvalid : (sample_data.filter (fun r => !r.isEmpty)).isEmpty = true
    · exfalso
      apply hdflt headers.length
      rw [← ht]
      unfold detect_column_types
      rw [if_neg hs, if_pos hvalid]
    · rw [detect_column_types_head sample_data headers db hvalid hs] at ht
      rw [Option.some.injEq] at ht
      rw [← ht] at hpk
      obtain ⟨hflag, hth⟩ := detect_one_column_pk_shape db (is_potential_pk sample_data) 0
        (columnAt sample_data 0) hpk
      have hpk' : is_potential_pk sample_data = true := by
        simpa using hflag
      unfold is_potential_pk at hpk'
      simp only [Bool.and_eq_true, decide_eq_true_eq, Bool.not_eq_true',
        List.isEmpty_eq_false] at hpk'
      exact ⟨hpk'.1, hpk'.2, hth⟩

/-- Witness for C5: two distinct sampled integers in column 0 produce
`INTEGER PRIMARY KEY`, and the theorem's conclusions hold there. -/
theorem detect_pk_only_if_witness :
    (first_col_values [[PyVal.vInt 1], [PyVal.vInt 2]]).Nodup
    ∧ first_col_values [[PyVal.vInt 1], [PyVal.vInt 2]] ≠ []
    ∧ consistencyThreshold
        (nonEmptyVals (columnAt [[PyVal.vInt 1], [PyVal.vInt 2]] 0)).length
        ≤ intCount (nonEmptyVals (columnAt [[PyVal.vInt 1], [PyVal.vInt 2]] 0)) :=
  detect_pk_only_if [[PyVal.vInt 1], [PyVal.vInt 2]] ["id"] DbType.sqlite
    "INTEGER PRIMARY KEY" (by decide) (by decide)

/-- Witness for C3: a single integer value meets the threshold `max(1,0)=1`
and the column is typed `INTEGER`. -/
theorem detect_one_column_threshold_witness :
    consistencyThreshold (nonEmptyVals [PyVal.vInt 1]).length
      ≤ intCount (nonEmptyVals [PyVal.vInt 1]) :=
  (detect_one_column_threshold DbType.sqlite false 1 [PyVal.vInt 1]).1 (by decide)

set_option maxRecDepth 20000 in
/-- C6 counterexample: a 261-digit integer cell has `str` length over 255,
yet the MySQL fallback returns the capped `VARCHAR(255)`, not `TEXT`: the
long-text check counts only string instances. -/
theorem detect_text_over255_counterexample :
    detect_column_types [[PyVal.vInt ((10 : Int) ^ 260)]] ["a"] DbType.mysql
        = ["VARCHAR(255)"]
    ∧ 255 < (pyStr (PyVal.vInt ((10 : Int) ^ 260))).length := by
  constructor
  · rfl
  · decide

/-- C6 amended: when no scalar category reaches the threshold, the MySQL
fallback returns `TEXT` exactly when some sampled string value is longer
than 255 characters, and otherwise the bounded
`VARCHAR(min(max(observed_max_length+50,100),255))`; non-string values
never trigger the `TEXT` branch. -/
theorem detect_varchar_fallback (pk : Bool) (i : Nat) (col : List PyVal)
    (hne : ¬(nonEmptyVals col).isEmpty = true)
    (h1 : intCount (nonEmptyVals col) < consistencyThreshold (nonEmptyVals col).length)
    (h2 : floatCount (nonEmptyVals col) < consistencyThreshold (nonEmptyVals col).length)
    (h3 : dateCount (nonEmptyVals col) < consistencyThreshold (nonEmptyVals col).length)
    (h4 : boolCount (nonEmptyVals col) < consistencyThreshold (nonEmptyVals col).length) :
    detect_one_column DbType.mysql pk i col
        = (if 0 < longTextCount (nonEmptyVals col) then "TEXT"
           else "VARCHAR(" ++
             toString (min (max (maxStrLength (nonEmptyVals col) + 50) 100) 255) ++ ")")
    ∧ (0 < longTextCount (nonEmptyVals col) ↔
        ∃ s, PyVal.vStr s ∈ nonEmptyVals col ∧ 255 < s.length) := by
  constructor
  · simp only [detect_one_column]
    rw [if_neg hne, if_neg (Nat.not_le.mpr h1), if_neg (Nat.not_le.mpr h2),
      if_neg (Nat.not_le.mpr h3), if_neg (Nat.not_le.mpr h4)]
  · unfold longTextCount
    constructor
    · intro hpos
      have hne' : (nonEmptyVals col).filter
          (fun x => isStrVal x && 255 < (pyStr x).length) ≠ [] := by
        intro hc
        rw [hc] at hpos
        simp at hpos
      obtain ⟨x, hx⟩ := List.exists_mem_of_ne_nil _ hne'
      have hmem := List.mem_filter.mp hx
      cases x with
      | vStr s =>
        refine ⟨s, hmem.1, ?_⟩
        have := hmem.2
        simp only [isStrVal, pyStr, Bool.true_and, decide_eq_true_eq] at this
        exact this
      | vInt n => simp [isStrVal] at hmem
      | vNone => simp [isStrVal] at hmem
    · intro ⟨s, hmem, hlt⟩
      apply List.length_pos.mpr
      intro hc
      have : PyVal.vStr s ∈ (nonEmptyVals col).filter
          (fun x => isStrVal x && 255 < (pyStr x).length) :=
        List.mem_filter.mpr ⟨hmem, by simp [isStrVal, pyStr, hlt]⟩
      rw [hc] at this
      simp at this

/-- Witness for C6: a single short string column falls through to
`VARCHAR(100)` with no long-text trigger. -/
theorem detect_varchar_fallback_witness :
    detect_one_column DbType.mysql false 0 [PyVal.vStr "abc"]
        = (if 0 < longTextCount (nonEmptyVals [PyVal.vStr "abc"]) then "TEXT"
           else "VARCHAR(" ++
             toString (min (max (maxStrLength (nonEmptyVals [PyVal.vStr "abc"]) + 50) 100)
               255) ++ ")")
    ∧ (0 < longTextCount (nonEmptyVals [PyVal.vStr "abc"]) ↔
        ∃ s, PyVal.vStr s ∈ nonEmptyVals [PyVal.vStr "abc"] ∧ 255 < s.length) :=
  detect_varchar_fallback false 0 [PyVal.vStr "abc"] (by decide) (by decide) (by decide)
    (by decide) (by decide)

/-! ### `MySQLDatabase.write_data` (XDB.py lines 1593-1692)

The success path of the MySQL writer: merge the chunks, compute the
mapped source-column indices, keep exactly the rows longer than the
largest mapped index, project them through the mapping with NaN
cleaning, and insert in 5000-row batches while counting rows. -/

/-- `is_nan_fast` (XDB.py line 1637): only the null cell is NaN-like among
the modelled values. -/
def is_nan_fast (v : PyVal) : Bool := v == PyVal.vNone

/-- `[i for i, h in enumerate(headers) if h in field_mapping]`. -/
def mapped_indices (headers : List String) (m : List (String × String)) : List Nat :=
  (headers.enum.filter (fun p => m.any (fun kv => kv.1 == p.2))).map Prod.fst

/-- One output tuple of the mapped path:
`tuple(None if is_nan_fast(row[i]) else row[i] for i in mapped_indices)`. -/
def projectRow (mi : List Nat) (row : Row) : Row :=
  mi.map (fun i =>
    let v := row.getD i PyVal.vNone
    if is_nan_fast v then PyVal.vNone else v)

/-- NaN cleaning of a full row (the unmapped path). -/
def nanCleanRow (row : Row) : Row :=
  row.map (fun v => if is_nan_fast v then PyVal.vNone else v)

/-- `all_data`: the chunks merged, skipping empty ones. -/
def mysql_all_data (data_chunks : List (List Row)) : List Row :=
  data_chunks.foldl (fun acc c => if c.isEmpty then acc else acc ++ c) []

/-- `filtered_data[i:i+batch_size]` slicing: split into batches of `n`. -/
def chunksOf (n : Nat) (l : List Row) : List (List Row) :=
  if l.isEmpty || n == 0 then []
  else l.take n :: chunksOf n (l.drop n)
termination_by l.length
decreasing_by
  rename_i h
  simp only [Bool.or_eq_true, List.isEmpty_iff, beq_iff_eq] at h
  push_neg at h
  have h1 : l ≠ [] := h.1
  have h2 : n ≠ 0 := h.2
  have : 0 < l.length := List.length_pos.mpr h1
  simp only [List.length_drop]
  omega

/-- The batched `executemany` loop: accumulates the inserted row sequence
and `total_rows`. -/
def mysql_insert_loop (batches : List (List Row)) : List Row × Nat :=
  batches.foldl (fun acc b => (acc.1 ++ b, acc.2 + b.length)) ([], 0)

/-- `MySQLDatabase.write_data` success path: the pair of the inserted row
sequence and the returned `total_rows`. -/
def mysql_write_data (headers : List String)
    (field_mapping : Option (List (String × String)))
    (data_chunks : List (List Row)) : List Row × Nat :=
  let all_data := mysql_all_data data_chunks
  if all_data.isEmpty then ([], 0)
  else
    let filtered :=
      match field_mapping with
      | some m =>
        if !m.isEmpty && !(mapped_indices headers m).isEmpty then
          (all_data.filter
              (fun row => decide (pyMaxNat (mapped_indices headers m) < row.length))).map
            (projectRow (mapped_indices headers m))
        else all_data.map nanCleanRow
      | none => all_data.map nanCleanRow
    mysql_insert_loop (chunksOf 5000 filtered)

theorem mysql_all_data_eq_flatten (data_chunks : List (List Row)) :
    mysql_all_data data_chunks = data_chunks.flatten := by
  suffices H : ∀ (l : List (List Row)) (acc : List Row),
      l.foldl (fun acc c => if c.isEmpty then acc else acc ++ c) acc = acc ++ l.flatten by
    have := H data_chunks []
    unfold mysql_all_data
    rw [this, List.nil_append]
  intro l
  induction l with
  | nil => intro acc; rw [List.foldl_nil, List.flatten_nil, List.append_nil]
  | cons c cs ih =>
    intro acc
    rw [List.foldl_cons, List.flatten_cons]
    by_cases hc : c.isEmpty
    · have hce : c = [] := List.isEmpty_iff.mp hc
      rw [if_pos hc, ih acc, hce, List.nil_append]
    · rw [if_neg hc, ih (acc ++ c), List.append_assoc]

theorem chunksOf_flatten (n : Nat) (hn : 0 < n) (l : List Row) :
    (chunksOf n l).flatten = l := by
  generalize hk : l.length = k
  induction k using Nat.strong_induction_on generalizing l with
  | _ k ih =>
    rw [chunksOf]
    by_cases hc : l.isEmpty || n == 0
    · simp only [Bool.or_eq_true, List.isEmpty_iff, beq_iff_eq] at hc
      rcases hc with hc | hc
      · simp [hc]
      · omega
    · simp only [if_neg hc, List.flatten_cons]
      simp only [Bool.or_eq_true, List.isEmpty_iff, beq_iff_eq] at hc
      push_neg at hc
      have hlen : (l.drop n).length < k := by
        have : 0 < l.length := List.length_pos.mpr hc.1
        simp only [List.length_drop]
        omega
      rw [ih (l.drop n).length hlen (l.drop n) rfl]
      exact List.take_append_drop n l

theorem mysql_insert_loop_spec (batches : List (List Row)) :
    mysql_insert_loop batches = (batches.flatten, batches.flatten.length) := by
  suffices H : ∀ (l : List (List Row)) (acc : List Row × Nat), acc.2 = acc.1.length →
      l.foldl (fun acc b => (acc.1 ++ b, acc.2 + b.length)) acc =
        (acc.1 ++ l.flatten, (acc.1 ++ l.flatten).length) by
    simpa using H batches ([], 0) rfl
  intro l
  induction l with
  | nil => intro acc h; simp [← h, Prod.ext_iff]
  | cons b bs ih =>
    intro acc h
    simp only [List.foldl_cons, List.flatten_cons]
    rw [ih (acc.1 ++ b, acc.2 + b.length) (by simp [h])]
    simp [List.append_assoc]

/-- C9: with a field mapping supplied (and at least one header mapped),
the MySQL writer inserts exactly the projections of the rows whose length
is strictly greater than the largest mapped source-column index, and the
returned row count equals the number of such rows: every shorter row is
silently excluded from the insert and from the count. -/
theorem mysql_write_data_mapping_filter (headers : List String)
    (m : List (String × String)) (data_chunks : List (List Row))
    (hm : m ≠ []) (hmi : mapped_indices headers m ≠ []) :
    mysql_write_data headers (some m) data_chunks =
      (((data_chunks.flatten.filter
          (fun row => decide (pyMaxNat (mapped_indices headers m) < row.length))).map
            (projectRow (mapped_indices headers m))),
        (data_chunks.flatten.filter
          (fun row => decide (pyMaxNat (mapped_indices headers m) < row.length))).length) := by
  unfold mysql_write_data
  rw [mysql_all_data_eq_flatten]
  by_cases hall : data_chunks.flatten.isEmpty
  · have : data_chunks.flatten = [] := List.isEmpty_iff.mp hall
    simp [this]
  · simp only [if_neg hall]
    have hcond : (!m.isEmpty && !(mapped_indices headers m).isEmpty) = true := by
      simp only [Bool.and_eq_true, Bool.not_eq_true', List.isEmpty_eq_false]
      exact ⟨by simpa [List.isEmpty_iff] using hm, by simpa [List.isEmpty_iff] using hmi⟩
    simp only [hcond, if_pos]
    rw [mysql_insert_loop_spec, chunksOf_flatten 5000 (by norm_num)]
    simp only [List.length_map]

/-- Witness for C9: headers `a, b` with only `b` mapped (index 1); the
1-cell row is dropped, the 2-cell row is inserted, and the count is 1. -/
theorem mysql_write_data_mapping_filter_witness :
    [("b", "tb")] ≠ ([] : List (String × String)) ∧
    mapped_indices ["a", "b"] [("b", "tb")] ≠ [] ∧
    mysql_write_data ["a", "b"] (some [("b", "tb")])
        [[[PyVal.vInt 1], [PyVal.vInt 1, PyVal.vInt 2]]] =
      ((([[PyVal.vInt 1], [PyVal.vInt 1, PyVal.vInt 2]] :
            List Row).filter
          (fun row =>
            decide (pyMaxNat (mapped_indices ["a", "b"] [("b", "tb")]) < row.length))).map
          (projectRow (mapped_indices ["a", "b"] [("b", "tb")])),
        (([[PyVal.vInt 1], [PyVal.vInt 1, PyVal.vInt 2]] :
            List Row).filter
          (fun row =>
            decide (pyMaxNat (mapped_indices ["a", "b"] [("b", "tb")]) < row.length))).length) := by
  refine ⟨by decide, by decide, ?_⟩
  have h := mysql_write_data_mapping_filter ["a", "b"] [("b", "tb")]
    [[[PyVal.vInt 1], [PyVal.vInt 1, PyVal.vInt 2]]] (by decide) (by decide)
  simpa using h

/-! ### `SQLiteDatabase.write_data` (XDB.py lines 1234-1318)

Explicit transactions: rows accumulate in the open transaction; once the
uncommitted row count reaches 50000 the code issues `COMMIT` and opens a
new transaction; the remainder is committed after the loop.  Any failure
(an out-of-range row index while building the mapped tuple, or a database
error from `executemany`, the latter modelled by the exogenous
`insertOk` flag per chunk) rolls back the open transaction and re-raises,
leaving earlier commits durable. -/

/-- The Python list comprehension over `Option` results: `none` as soon as
one element fails (an exception aborts the whole comprehension). -/
def mapOptionList (f : Row → Option Row) : List Row → Option (List Row)
  | [] => some []
  | r :: rest =>
    match f r, mapOptionList f rest with
    | some r', some rest' => some (r' :: rest')
    | _, _ => none

/-- One mapped output row of the SQLite writer: for each header in the
mapping, `row[i]` (an `IndexError` when the row is shorter) with NaN
cleaning. -/
def sqliteFilterRow (headers : List String) (m : List (String × String))
    (row : Row) : Option Row :=
  (headers.enum.filter (fun p => m.any (fun kv => kv.1 == p.2))).mapA
    (fun p => (row.get? p.1).map (fun v => if is_nan_or_empty v then PyVal.vNone else v))

/-- The writer's mutable state: committed transactions in order, the open
transaction's rows, the `batch_size` counter and `total_rows`. -/
structure SqliteWriteState where
  commits : List (List Row)
  pending : List Row
  batch : Nat
  total : Nat
deriving DecidableEq, Repr

/-- The per-chunk loop of `SQLiteDatabase.write_data`.  Returns the state
and `none` on success, or the rolled-back state and the error. -/
def sqlite_write_loop (headers : List String)
    (fm : Option (List (String × String))) (insertOk : Nat → Bool) :
    List (List Row) → Nat → SqliteWriteState → SqliteWriteState × Option String
  | [], _, st => (st, none)
  | chunk :: rest, k, st =>
    if chunk.isEmpty then sqlite_write_loop headers fm insertOk rest (k + 1) st
    else
      let filtered : Option (List Row) :=
        match fm with
        | some m =>
          if !m.isEmpty then mapOptionList (sqliteFilterRow headers m) chunk
          else some chunk
        | none => some chunk
      match filtered with
      | none => (⟨st.commits, [], st.batch, st.total⟩, some "IndexError")
      | some rows =>
        if insertOk k then
          let st' : SqliteWriteState :=
            ⟨st.commits, st.pending ++ rows, st.batch + rows.length, st.total + rows.length⟩
          if 50000 ≤ st'.batch then
            sqlite_write_loop headers fm insertOk rest (k + 1)
              ⟨st'.commits ++ [st'.pending], [], 0, st'.total⟩
          else sqlite_write_loop headers fm insertOk rest (k + 1) st'
        else (⟨st.commits, [], st.batch, st.total⟩, some "DatabaseError")

/-- The initial state: empty transaction, zero counters. -/
def sqliteInitState : SqliteWriteState := ⟨[], [], 0, 0⟩

/-- `SQLiteDatabase.write_data`: run the loop and commit the remainder;
on an error the rolled-back state is returned with the error. -/
def sqlite_write_data (headers : List String)
    (fm : Option (List (String × String))) (insertOk : Nat → Bool)
    (data_chunks : List (List Row)) : SqliteWriteState × Option String :=
  match sqlite_write_loop headers fm insertOk data_chunks 0 sqliteInitState with
  | (st, none) => (⟨st.commits ++ [st.pending], [], st.batch, st.total⟩, none)
  | (st, some e) => (st, some e)

theorem mapOptionList_length (f : Row → Option Row) :
    ∀ (l : List Row) (r : List Row), mapOptionList f l = some r → r.length = l.length := by
  intro l
  induction l with
  | nil => intro r h; simp only [mapOptionList, Option.some.injEq] at h; simp [← h]
  | cons x xs ih =>
    intro r h
    simp only [mapOptionList] at h
    match hx : f x, hxs : mapOptionList f xs with
    | some x', some xs' =>
      rw [hx, hxs] at h
      simp only [Option.some.injEq] at h
      simp [← h, ih xs' hxs]
    | some x', none => rw [hx, hxs] at h; exact absurd h (by simp)
    | none, _ => rw [hx] at h; exact absurd h (by simp)

/-- Loop invariant: with `batch` tracking the open transaction's size and
every remaining chunk at most `M` rows, every committed transaction stays
at most `49999 + M` rows, and a clean exit leaves at most `49999`
uncommitted rows. -/
theorem sqlite_loop_commits_bound (headers : List String)
    (fm : Option (List (String × String))) (insertOk : Nat → Bool) :
    ∀ (l : List (List Row)) (k : Nat) (st : SqliteWriteState) (M : Nat),
      (∀ c ∈ l, c.length ≤ M) →
      st.batch = st.pending.length →
      st.batch ≤ 49999 →
      (∀ t ∈ st.commits, t.length ≤ 49999 + M) →
      (∀ t ∈ (sqlite_write_loop headers fm insertOk l k st).1.commits,
          t.length ≤ 49999 + M)
      ∧ ((sqlite_write_loop headers fm insertOk l k st).2 = none →
          (sqlite_write_loop headers fm insertOk l k st).1.pending.length ≤ 49999) := by
  intro l
  induction l with
  | nil =>
    intro k st M _ hbp hb hc
    exact ⟨hc, fun _ => hbp ▸ hb⟩
  | cons chunk rest ih =>
    intro k st M hM hbp hb hc
    have hMc : chunk.length ≤ M := hM chunk (by simp)
    have hMr : ∀ c ∈ rest, c.length ≤ M := fun c hcm => hM c (by simp [hcm])
    simp only [sqlite_write_loop]
    by_cases hce : chunk.isEmpty = true
    · rw [if_pos hce]
      exact ih (k + 1) st M hMr hbp hb hc
    · rw [if_neg hce]
      rcases hfm : (match fm with
        | some m =>
          if !m.isEmpty then mapOptionList (sqliteFilterRow headers m) chunk
          else some chunk
        | none => some chunk) with _ | rows
      · simp only [hfm]
        exact ⟨hc, by simp⟩
      · simp only [hfm]
        have hrows : rows.length ≤ M := by
          rcases fm with _ | m
          · simp only [Option.some.injEq] at hfm
            exact hfm ▸ hMc
          · simp only at hfm
            by_cases hm : (!m.isEmpty) = true
            · rw [if_pos hm] at hfm
              rw [mapOptionList_length (sqliteFilterRow headers m) chunk rows hfm]
              exact hMc
            · rw [if_neg hm, Option.some.injEq] at hfm
              exact hfm ▸ hMc
        by_cases hk : insertOk k = true
        · rw [if_pos hk]
          by_cases hbig : 50000 ≤ st.batch + rows.length
          · rw [if_pos hbig]
            refine ih (k + 1)
              ⟨st.commits ++ [st.pending ++ rows], [], 0, st.total + rows.length⟩ M hMr rfl
              (by simp) ?_
            intro t ht
            rcases List.mem_append.mp ht with ht | ht
            · exact hc t ht
            · have := List.mem_singleton.mp ht
              subst this
              simp only [List.length_append]
              rw [← hbp]
              omega
          · rw [if_neg hbig]
            exact ih (k + 1)
              ⟨st.commits, st.pending ++ rows, st.batch + rows.length,
                st.total + rows.length⟩ M hMr
              (by simp [List.length_append, hbp])
              (by show st.batch + rows.length ≤ 49999; omega) hc
        · rw [if_neg hk]
          exact ⟨hc, by simp⟩

/-- Running the loop on an appended chunk list: when the first part
finishes cleanly, the run continues on the second part with the chunk
index advanced by the first part's length. -/
theorem sqlite_loop_append (headers : List String)
    (fm : Option (List (String × String))) (insertOk : Nat → Bool) :
    ∀ (l₁ l₂ : List (List Row)) (k : Nat) (st st₁ : SqliteWriteState),
      sqlite_write_loop headers fm insertOk l₁ k st = (st₁, none) →
      sqlite_write_loop headers fm insertOk (l₁ ++ l₂) k st =
        sqlite_write_loop headers fm insertOk l₂ (k + l₁.length) st₁ := by
  intro l₁
  induction l₁ with
  | nil =>
    intro l₂ k st st₁ h
    simp only [sqlite_write_loop, Prod.mk.injEq] at h
    rw [List.nil_append, List.length_nil, Nat.add_zero, h.1]
  | cons chunk rest ih =>
    intro l₂ k st st₁ h
    have harith : k + 1 + rest.length = k + (chunk :: rest).length := by
      simp only [List.length_cons]
      omega
    rw [List.cons_append]
    simp only [sqlite_write_loop] at h ⊢
    by_cases hce : chunk.isEmpty = true
    · rw [if_pos hce] at h ⊢
      rw [ih l₂ (k + 1) st st₁ h, harith]
    · rw [if_neg hce] at h ⊢
      rcases hfm : (match fm with
        | some m =>
          if !m.isEmpty then mapOptionList (sqliteFilterRow headers m) chunk
          else some chunk
        | none => some chunk) with _ | rows
      · simp only [hfm] at h
        exact absurd (congrArg Prod.snd h) (by simp)
      · simp only [hfm] at h ⊢
        by_cases hk : insertOk k = true
        · rw [if_pos hk] at h ⊢
          by_cases hbig : 50000 ≤ st.batch + rows.length
          · rw [if_pos hbig] at h ⊢
            rw [ih _ _ _ _ h, harith]
          · rw [if_neg hbig] at h ⊢
            rw [ih _ _ _ _ h, harith]
        · rw [if_neg hk] at h
          exact absurd (congrArg Prod.snd h) (by simp)

/-- C8: every transaction the SQLite writer commits holds at most
`49999 + (largest chunk row count)` rows, the threshold commit keeping the
open transaction bounded; and when the insert of some chunk fails after a
clean prefix, the writer returns the error, the open transaction is rolled
back (no pending rows), and the commits are exactly those already made
before the failing chunk. -/
theorem sqlite_write_data_spec (headers : List String)
    (fm : Option (List (String × String))) (insertOk : Nat → Bool)
    (data_chunks : List (List Row)) :
    (∀ t ∈ (sqlite_write_data headers fm insertOk data_chunks).1.commits,
        t.length ≤ 49999 + pyMaxNat (data_chunks.map List.length))
    ∧ (∀ k chunk, data_chunks.get? k = some chunk → ¬chunk.isEmpty = true →
        insertOk k = false →
        (sqlite_write_loop headers fm insertOk (data_chunks.take k) 0 sqliteInitState).2
          = none →
        (sqlite_write_data headers fm insertOk data_chunks).2.isSome = true
        ∧ (sqlite_write_data headers fm insertOk data_chunks).1.pending = []
        ∧ (sqlite_write_data headers fm insertOk data_chunks).1.commits
            = (sqlite_write_loop headers fm insertOk (data_chunks.take k) 0
                sqliteInitState).1.commits) := by
  have hM : ∀ c ∈ data_chunks, c.length ≤ pyMaxNat (data_chunks.map List.length) :=
    fun c hcm => le_pyMaxNat_of_mem (List.mem_map_of_mem List.length hcm)
  have hbound := sqlite_loop_commits_bound headers fm insertOk data_chunks 0
    sqliteInitState (pyMaxNat (data_chunks.map List.length)) hM rfl (by simp [sqliteInitState])
    (by simp [sqliteInitState])
  constructor
  · intro t ht
    rcases hl : sqlite_write_loop headers fm insertOk data_chunks 0 sqliteInitState
      with ⟨st', o⟩
    rw [hl] at hbound
    have hwd : sqlite_write_data headers fm insertOk data_chunks
        = (match ((st', o) : SqliteWriteState × Option String) with
           | (st, none) => (⟨st.commits ++ [st.pending], [], st.batch, st.total⟩, none)
           | (st, some e) => (st, some e)) := by
      unfold sqlite_write_data
      rw [hl]
    rcases o with _ | e
    · rw [hwd] at ht
      have ht' : t ∈ st'.commits ++ [st'.pending] := ht
      rcases List.mem_append.mp ht' with hta | htb
      · exact hbound.1 t hta
      · have := List.mem_singleton.mp htb
        subst this
        calc st'.pending.length ≤ 49999 := hbound.2 rfl
          _ ≤ 49999 + pyMaxNat (data_chunks.map List.length) := Nat.le_add_right _ _
    · rw [hwd] at ht
      have ht' : t ∈ st'.commits := ht
      exact hbound.1 t ht'
  · intro k chunk hget hne hfail hpre
    obtain ⟨hklen, hgetk⟩ := List.get?_eq_some.mp hget
    simp only [List.get_eq_getElem] at hgetk
    have hsplit : data_chunks = data_chunks.take k ++ (chunk :: data_chunks.drop (k + 1)) := by
      conv_lhs => rw [← List.take_append_drop k data_chunks]
      congr 1
      rw [List.drop_eq_getElem_cons hklen, hgetk]
    have htk : (data_chunks.take k).length = k := by
      rw [List.length_take]
      omega
    have hpair : sqlite_write_loop headers fm insertOk (data_chunks.take k) 0 sqliteInitState
        = ((sqlite_write_loop headers fm insertOk (data_chunks.take k) 0
            sqliteInitState).1, none) :=
      Prod.ext rfl hpre
    have hrun : sqlite_write_loop headers fm insertOk data_chunks 0 sqliteInitState =
        sqlite_write_loop headers fm insertOk (chunk :: data_chunks.drop (k + 1)) k
          (sqlite_write_loop headers fm insertOk (data_chunks.take k) 0 sqliteInitState).1 := by
      conv_lhs => rw [hsplit]
      rw [sqlite_loop_append headers fm insertOk (data_chunks.take k)
        (chunk :: data_chunks.drop (k + 1)) 0 sqliteInitState _ hpair, htk, Nat.zero_add]
    have hstep : sqlite_write_loop headers fm insertOk (chunk :: data_chunks.drop (k + 1)) k
        (sqlite_write_loop headers fm insertOk (data_chunks.take k) 0 sqliteInitState).1
        = (⟨(sqlite_write_loop headers fm insertOk (data_chunks.take k) 0
              sqliteInitState).1.commits, [],
            (sqlite_write_loop headers fm insertOk (data_chunks.take k) 0
              sqliteInitState).1.batch,
            (sqlite_write_loop headers fm insertOk (data_chunks.take k) 0
              sqliteInitState).1.total⟩,
           some (match (match fm with
             | some m =>
               if !m.isEmpty then mapOptionList (sqliteFilterRow headers m) chunk
               else some chunk
             | none => some chunk) with
             | none => "IndexError"
             | some _ => "DatabaseError")) := by
      simp only [sqlite_write_loop]
      rw [if_neg hne]
      rcases hfm : (match fm with
        | some m =>
          if !m.isEmpty then mapOptionList (sqliteFilterRow headers m) chunk
          else some chunk
        | none => some chunk) with _ | rows
      · simp only [hfm]
      · simp only [hfm]
        rw [if_neg (by rw [hfail]; exact Bool.false_ne_true)]
    have hwd : sqlite_write_data headers fm insertOk data_chunks
        = ((⟨(sqlite_write_loop headers fm insertOk (data_chunks.take k) 0
              sqliteInitState).1.commits, [],
            (sqlite_write_loop headers fm insertOk (data_chunks.take k) 0
              sqliteInitState).1.batch,
            (sqlite_write_loop headers fm insertOk (data_chunks.take k) 0
              sqliteInitState).1.total⟩ : SqliteWriteState),
           some (match (match fm with
             | some m =>
               if !m.isEmpty then mapOptionList (sqliteFilterRow headers m) chunk
               else some chunk
             | none => some chunk) with
             | none => "IndexError"
             | some _ => "DatabaseError")) := by
      unfold sqlite_write_data
      rw [hrun, hstep]
    rw [hwd]
    exact ⟨rfl, rfl, rfl⟩

/-- Witness for C8: two one-row chunks, the second insert failing: the
writer reports the error, rolls back, and keeps no commit (the first chunk
was still uncommitted). -/
theorem sqlite_write_data_spec_witness :
    ([[[PyVal.vInt 1]], [[PyVal.vInt 2]]] : List (List Row)).get? 1 = some [[PyVal.vInt 2]]
    ∧ ¬([[PyVal.vInt 2]] : List Row).isEmpty = true
    ∧ (fun k => k == 0) 1 = false
    ∧ (sqlite_write_data ["a"] none (fun k => k == 0)
          [[[PyVal.vInt 1]], [[PyVal.vInt 2]]]).2.isSome = true
    ∧ (sqlite_write_data ["a"] none (fun k => k == 0)
          [[[PyVal.vInt 1]], [[PyVal.vInt 2]]]).1.pending = []
    ∧ (sqlite_write_data ["a"] none (fun k => k == 0)
          [[[PyVal.vInt 1]], [[PyVal.vInt 2]]]).1.commits
        = (sqlite_write_loop ["a"] none (fun k => k == 0)
            ([[[PyVal.vInt 1]], [[PyVal.vInt 2]]].take 1) 0 sqliteInitState).1.commits := by
  refine ⟨by decide, by decide, by decide, ?_⟩
  exact (sqlite_write_data_spec ["a"] none (fun k => k == 0)
    [[[PyVal.vInt 1]], [[PyVal.vInt 2]]]).2 1 [[PyVal.vInt 2]] (by decide) (by decide)
    (by decide) (by decide)

/-! ### Chunk reassembly (`file_to_database`, XDB.py lines 2136-2164)

As futures complete (in arbitrary order), nonempty chunk results are
stored in `data_chunks_dict` keyed by `chunk_id`; afterwards
`sorted(data_chunks_dict.items())` drains them in ascending index order
and their rows are handed to `db.write_data`. -/

/-- `d[k] = v` on a Python dict modelled as an ordered association list:
replace in place, or append when the key is new. -/
def dictInsert (d : List (Nat × List Row)) (k : Nat) (v : List Row) :
    List (Nat × List Row) :=
  match d with
  | [] => [(k, v)]
  | p :: rest => if p.1 = k then (k, v) :: rest else p :: dictInsert rest k v

/-- The result-collection loop: each completed `(chunk_id, chunk_data)` is
stored iff `chunk_data` is nonempty (`if chunk_data:`). -/
def collect_chunks (completed : List (Nat × List Row)) : List (Nat × List Row) :=
  completed.foldl (fun d p => if p.2.isEmpty then d else dictInsert d p.1 p.2) []

/-- Ordering of dict items by chunk index, as `sorted(...)` compares them
(keys are distinct in every reachable state, so only indices compare). -/
def keyLE (a b : Nat × List Row) : Prop := a.1 ≤ b.1

instance : DecidableRel keyLE := fun a b => inferInstanceAs (Decidable (a.1 ≤ b.1))

instance : IsTotal (Nat × List Row) keyLE := ⟨fun a b => Nat.le_total a.1 b.1⟩

instance : IsTrans (Nat × List Row) keyLE := ⟨fun _ _ _ h h' => Nat.le_trans h h'⟩

/-- `sorted_chunks = sorted(data_chunks_dict.items())`. -/
def sorted_chunks (completed : List (Nat × List Row)) : List (Nat × List Row) :=
  List.insertionSort keyLE (collect_chunks completed)

/-- The row sequence handed to the backend write step: the drained chunks
in ascending index order, concatenated. -/
def rows_for_write (completed : List (Nat × List Row)) : List Row :=
  ((sorted_chunks completed).map Prod.snd).flatten

/-- Inserting a fresh key appends at the end of the dict. -/
theorem dictInsert_of_fresh (d : List (Nat × List Row)) (k : Nat) (v : List Row)
    (h : k ∉ d.map Prod.fst) : dictInsert d k v = d ++ [(k, v)] := by
  induction d with
  | nil => rfl
  | cons p rest ih =>
    simp only [List.map_cons, List.mem_cons] at h
    push_neg at h
    have hne : ¬ p.1 = k := fun hh => h.1 hh.symm
    simp only [dictInsert, if_neg hne, List.cons_append, ih h.2]

/-- With pairwise-distinct chunk indices the collection loop stores exactly
the nonempty results, in arrival order. -/
theorem collect_chunks_eq_filter (completed : List (Nat × List Row))
    (h : (completed.map Prod.fst).Nodup) :
    collect_chunks completed = completed.filter (fun p => !p.2.isEmpty) := by
  suffices H : ∀ (l acc : List (Nat × List Row)), (l.map Prod.fst).Nodup →
      (∀ k ∈ l.map Prod.fst, k ∉ acc.map Prod.fst) →
      l.foldl (fun d p => if p.2.isEmpty then d else dictInsert d p.1 p.2) acc =
        acc ++ l.filter (fun p => !p.2.isEmpty) by
    have := H completed [] h (by simp)
    unfold collect_chunks
    simpa using this
  intro l
  induction l with
  | nil => intro acc _ _; simp
  | cons p rest ih =>
    intro acc hnd hfresh
    simp only [List.map_cons, List.nodup_cons] at hnd
    by_cases he : p.2.isEmpty
    · simp only [List.foldl_cons, if_pos he, List.filter_cons, he]
      simpa using ih acc hnd.2 (fun k hk => hfresh k (by simp [hk]))
    · simp only [List.foldl_cons, if_neg he, List.filter_cons]
      rw [dictInsert_of_fresh acc p.1 p.2 (hfresh p.1 (by simp))]
      rw [ih (acc ++ [(p.1, p.2)]) hnd.2 ?fresh]
      · simp [he]
      case fresh =>
        intro k hk
        simp only [List.map_append, List.mem_append]
        push_neg
        refine ⟨hfresh k (by simp [hk]), ?_⟩
        simp only [List.map_cons, List.map_nil, List.mem_singleton]
        intro hek
        exact hnd.1 (hek ▸ hk)

/-- Two sorted lists of index-keyed chunks that are permutations of each
other and have pairwise-distinct keys are equal. -/
theorem sorted_perm_eq_of_nodup_keys :
    ∀ {s t : List (Nat × List Row)}, s.Perm t → s.Pairwise keyLE →
      t.Pairwise keyLE → (s.map Prod.fst).Nodup → s = t := by
  intro s
  induction s with
  | nil => intro t hp _ _ _; exact (List.Perm.nil_eq hp).symm ▸ rfl
  | cons a s₁ ih =>
    intro t hp hs ht hnd
    match t with
    | [] => exact absurd hp.symm (by simp)
    | b :: t₁ =>
      have hab : a = b := by
        have hamem : a ∈ b :: t₁ := hp.mem_iff.mp (by simp)
        rcases List.mem_cons.mp hamem with h | h
        · exact h
        · have hbmem : b ∈ a :: s₁ := hp.symm.mem_iff.mp (by simp)
          rcases List.mem_cons.mp hbmem with h' | h'
          · exact h'.symm
          · -- both heads bound each other, so the keys agree; then nodup
            -- of the keys of `a :: s₁` forces the heads to coincide
            have h₁ : keyLE a b := (List.pairwise_cons.mp hs).1 b h'
            have h₂ : keyLE b a := (List.pairwise_cons.mp ht).1 a h
            have hk : a.1 = b.1 := Nat.le_antisymm h₁ h₂
            simp only [List.map_cons, List.nodup_cons] at hnd
            exact absurd (hk ▸ (List.mem_map_of_mem Prod.fst h')) hnd.1
      subst hab
      have hp' : s₁.Perm t₁ := hp.cons_inv
      have : s₁ = t₁ := by
        apply ih hp' (List.pairwise_cons.mp hs).2 (List.pairwise_cons.mp ht).2
        simp only [List.map_cons, List.nodup_cons] at hnd
        exact hnd.2
      rw [this]

/-- Keys of `enumFrom` are pairwise increasing. -/
theorem pairwise_keyLE_enumFrom (n : Nat) (l : List (List Row)) :
    (List.enumFrom n l).Pairwise keyLE := by
  induction l generalizing n with
  | nil => simp
  | cons c cs ih =>
    simp only [List.enumFrom_cons, List.pairwise_cons]
    refine ⟨fun p hp => ?_, ih (n + 1)⟩
    obtain ⟨i, x⟩ := p
    have := (List.mem_enumFrom hp).1
    exact Nat.le_of_lt (Nat.lt_of_lt_of_le (Nat.lt_succ_self n) this)

/-- Dropping the empty chunk results and concatenating the rest in index
order reproduces the full concatenation. -/
theorem join_filter_enumFrom (n : Nat) (chunks : List (List Row)) :
    (((List.enumFrom n chunks).filter (fun p => !p.2.isEmpty)).map Prod.snd).flatten
      = chunks.flatten := by
  induction chunks generalizing n with
  | nil => rfl
  | cons c cs ih =>
    simp only [List.enumFrom_cons, List.filter_cons]
    by_cases he : c.isEmpty
    · have hc : c = [] := List.isEmpty_iff.mp he
      simp [he, hc, ih (n + 1)]
    · simp [he, ih (n + 1)]

/-- C1: for chunk results `chunks` listed in ascending chunk-index order,
and any completion order (any permutation of the indexed results), the
row sequence handed to the write step equals the concatenation of the
chunk results in index order, i.e. the original source row order. -/
theorem reassembly_preserves_order (chunks : List (List Row))
    (completed : List (Nat × List Row)) (h : completed.Perm chunks.enum) :
    rows_for_write completed = chunks.flatten := by
  have hkeys : (completed.map Prod.fst).Nodup := by
    have hperm : (completed.map Prod.fst).Perm (chunks.enum.map Prod.fst) :=
      h.map Prod.fst
    exact hperm.nodup_iff.mpr (List.nodup_enum_map_fst chunks)
  have hfilterperm :
      (completed.filter (fun p => !p.2.isEmpty)).Perm
        (chunks.enum.filter (fun p => !p.2.isEmpty)) := h.filter _
  have hsortedfilter : (chunks.enum.filter (fun p => !p.2.isEmpty)).Pairwise keyLE :=
    (pairwise_keyLE_enumFrom 0 chunks).filter _
  have hnodupsort :
      (((List.insertionSort keyLE (completed.filter (fun p => !p.2.isEmpty)))).map
        Prod.fst).Nodup := by
    have hsub : (completed.filter (fun p => !p.2.isEmpty)).Sublist completed :=
      List.filter_sublist completed
    have : ((completed.filter (fun p => !p.2.isEmpty)).map Prod.fst).Nodup :=
      (hsub.map Prod.fst).nodup hkeys
    have hperm := (List.perm_insertionSort keyLE
      (completed.filter (fun p => !p.2.isEmpty))).map Prod.fst
    exact hperm.nodup_iff.mpr this
  have hkey₁ :
      List.insertionSort keyLE (completed.filter (fun p => !p.2.isEmpty)) =
        chunks.enum.filter (fun p => !p.2.isEmpty) := by
    apply sorted_perm_eq_of_nodup_keys
    · exact (List.perm_insertionSort keyLE _).trans hfilterperm
    · exact List.sorted_insertionSort keyLE _
    · exact hsortedfilter
    · exact hnodupsort
  have hcollect := collect_chunks_eq_filter completed hkeys
  unfold rows_for_write sorted_chunks
  rw [hcollect, hkey₁]
  exact join_filter_enumFrom 0 chunks

/-- Witness for C1: three chunks completing in the order 2, 0, 1 still
yield the source row order. -/
theorem reassembly_preserves_order_witness :
    rows_for_write
      [(2, [[PyVal.vInt 5]]), (0, [[PyVal.vInt 1], [PyVal.vInt 2]]), (1, [])]
      = [[PyVal.vInt 1], [PyVal.vInt 2], [PyVal.vInt 5]] :=
  reassembly_preserves_order [[[PyVal.vInt 1], [PyVal.vInt 2]], [], [[PyVal.vInt 5]]]
    [(2, [[PyVal.vInt 5]]), (0, [[PyVal.vInt 1], [PyVal.vInt 2]]), (1, [])]
    (by decide)

/-! ### Identifier sanitization (XDB.py lines 51-130, 335-348)

`sanitize_table_name` and `sanitize_column_name`: a cleaning pass, then
`validate_sql_identifier` (raising = `none`), then quote escaping; a
validation failure substitutes a deterministic hash-derived name.
`hashlib.md5` is an external library; its 8-hex-character digest prefix is
modelled by `hash8`, a deterministic digest producing 8 lowercase hex
characters, which is all the surrounding code depends on. -/

/-- Collapse runs of underscores to a single one (`re.sub(r'_+', '_')`). -/
def collapseU : List Char → List Char
  | [] => []
  | [c] => [c]
  | a :: b :: t =>
    if a == '_' && b == '_' then collapseU (b :: t) else a :: collapseU (b :: t)

/-- Underscore test for `strip('_')`. -/
def isU (c : Char) : Bool := c == '_'

/-- Drop trailing underscores. -/
def dropTrail (l : List Char) : List Char :=
  (l.reverse.dropWhile isU).reverse

/-- `str.strip('_')`: drop leading and trailing underscores. -/
def stripUnd (l : List Char) : List Char :=
  dropTrail (l.dropWhile isU)

/-- First character is a letter or CJK (`cleaned[0].isalpha() or ...`). -/
def headOkL : List Char → Bool
  | [] => false
  | c :: _ => c.isAlpha || isCJK c

/-- The shared cleaning pipeline: replace non-word characters with
underscores, collapse runs, strip both ends. -/
def cleanedCore (l : List Char) : List Char :=
  stripUnd (collapseU (l.map (fun c => if pyIsWordChar c then c else '_')))

/-- `clean_table_name` (XDB.py line 335). -/
def clean_table_name (name : String) : String :=
  if name.isEmpty then "T_default"
  else
    String.mk
      ((if headOkL (cleanedCore name.toList) then cleanedCore name.toList
        else 'T' :: '_' :: cleanedCore name.toList).take 64)

/-- The SQL keyword and dangerous-pattern blacklist (XDB.py lines 69-76). -/
def dangerous_patterns : List String :=
  ["DROP", "DELETE", "UPDATE", "INSERT", "SELECT", "ALTER", "CREATE", "TRUNCATE",
   "UNION", "EXEC", "EXECUTE", "DECLARE", "CAST", "CONVERT", "MERGE",
   ";", "--", "/*", "*/", "XP_", "SP_", "OPENROWSET", "OPENQUERY",
   "BULK", "LOAD_FILE", "INTO OUTFILE", "INTO DUMPFILE"]

/-- The blacklist scan over the uppercased identifier, on character lists. -/
def checkBlacklistL (l : List Char) : Bool :=
  dangerous_patterns.any (fun p => containsSub p.toList (l.map Char.toUpper))

/-- The blacklist scan of `validate_sql_identifier`. -/
def checkBlacklist (s : String) : Bool := checkBlacklistL s.toList

/-- The identifier regex `^[a-zA-Z_一-鿿][a-zA-Z0-9_一-鿿]*$`. -/
def identRegexOk : List Char → Bool
  | [] => false
  | c :: cs => (c.isAlpha || c == '_' || isCJK c) && cs.all pyIsWordChar

/-- `validate_sql_identifier` (XDB.py line 51): `none` models a raised
`ValueError`. -/
def validate_sql_identifier (name : String) : Option String :=
  if name.isEmpty then none
  else if 64 < (pyStrip name).toList.length then none
  else if !identRegexOk (pyStrip name).toList then none
  else if checkBlacklist (pyStrip name) then none
  else some (pyStrip name)

/-- The single-quote character. -/
def squote : Char := Char.ofNat 39

/-- `safe_sql_identifier` (XDB.py line 85): validate, then double the two
quote characters. -/
def safe_sql_identifier (name : String) : Option String :=
  (validate_sql_identifier name).map (fun v =>
    pyReplace (pyReplace v (String.mk ['"']) (String.mk ['"', '"']))
      (String.mk [squote]) (String.mk [squote, squote]))

/-- Hex digit characters `0-9a-f`. -/
def hexDigitChar (n : Nat) : Char :=
  if n < 10 then Char.ofNat (48 + n) else Char.ofNat (87 + n)

/-- Modelled from the spec: the `hashlib.md5(...).hexdigest()[:8]` fallback
digest, "a deterministic fallback name derived from a hash of the
original" — a deterministic digest of 8 lowercase hex characters. -/
def hash8 (s : String) : String :=
  let h := s.toList.foldl (fun h c => (h * 31 + c.toNat) % 4294967296) 5381
  String.mk ((List.range 8).map (fun i => hexDigitChar ((h / 16 ^ i) % 16)))

/-- `sanitize_table_name` (XDB.py line 92). -/
def sanitize_table_name (raw_name : String) : String :=
  if raw_name.isEmpty then "default_table"
  else
    match safe_sql_identifier (clean_table_name raw_name) with
    | some s => s
    | none => "table_" ++ hash8 raw_name

/-- The cleaning pipeline of `sanitize_column_name` (XDB.py lines 114-125),
ending with the `[:64]` truncation passed to `safe_sql_identifier`. -/
def clean_column_core (raw : String) : String :=
  String.mk
    ((if headOkL (cleanedCore (pyStripL raw.toList)) then cleanedCore (pyStripL raw.toList)
      else 'c' :: 'o' :: 'l' :: '_' :: cleanedCore (pyStripL raw.toList)).take 64)

/-- `sanitize_column_name` (XDB.py line 108). -/
def sanitize_column_name (raw_name : String) : String :=
  if raw_name.isEmpty then "default_column"
  else
    match safe_sql_identifier (clean_column_core raw_name) with
    | some s => s
    | none => "col_" ++ hash8 raw_name

/-! ### Shape invariants of sanitized identifiers -/

/-- All characters are word characters. -/
def WordL (l : List Char) : Prop := ∀ c ∈ l, pyIsWordChar c = true

/-- No two adjacent underscores. -/
def NoDD (l : List Char) : Prop :=
  List.Chain' (fun a b => ¬(a = '_' ∧ b = '_')) l

/-- The shape every validated identifier has: word characters only, no
double underscore, letter/CJK head, at most 64 characters, and clean of
the blacklist. -/
def GoodIdent (l : List Char) : Prop :=
  WordL l ∧ NoDD l ∧ headOkL l = true ∧ l.length ≤ 64 ∧ checkBlacklistL l = false

theorem mem_of_containsSub {p l : List Char} (h : containsSub p l = true) :
    ∀ c ∈ p, c ∈ l := by
  induction l with
  | nil =>
    intro c hc
    simp only [containsSub, List.isEmpty_iff] at h
    rw [h] at hc
    exact absurd hc (List.not_mem_nil c)
  | cons x xs ih =>
    simp only [containsSub, Bool.or_eq_true] at h
    rcases h with h | h
    · intro c hc
      obtain ⟨t, ht⟩ := List.isPrefixOf_iff_prefix.mp h
      rw [← ht]
      exact List.mem_append_left t hc
    · intro c hc
      exact List.mem_cons_of_mem x (ih h c hc)

theorem isPrefixOf_append {p l t : List Char} (h : p.isPrefixOf l = true) :
    p.isPrefixOf (l ++ t) = true := by
  rw [List.isPrefixOf_iff_prefix] at h ⊢
  obtain ⟨u, hu⟩ := h
  exact ⟨u ++ t, by rw [← List.append_assoc, hu]⟩

theorem containsSub_append_right {p l t : List Char} (h : containsSub p l = true) :
    containsSub p (l ++ t) = true := by
  induction l with
  | nil =>
    simp only [containsSub, List.isEmpty_iff] at h
    subst h
    cases t with
    | nil => rfl
    | cons c cs => simp [containsSub, List.isPrefixOf]
  | cons x xs ih =>
    simp only [containsSub, Bool.or_eq_true] at h ⊢
    rcases h with h | h
    · exact Or.inl (isPrefixOf_append h)
    · exact Or.inr (ih h)

theorem dropWhile_eq_self_of_all {p : Char → Bool} {l : List Char}
    (h : ∀ c ∈ l, p c = false) : l.dropWhile p = l := by
  cases l with
  | nil => rfl
  | cons c cs => rw [List.dropWhile_cons, h c (by simp), if_neg (by simp)]

theorem word_not_ws {c : Char} (h : pyIsWordChar c = true) : isPyWS c = false := by
  by_contra hws
  simp only [Bool.not_eq_false] at hws
  simp only [isPyWS, Bool.or_eq_true, beq_iff_eq] at hws
  rcases hws with ((((h1 | h1) | h1) | h1) | h1) | h1 <;>
    (subst h1; exact absurd h (by decide))

theorem pyStripL_of_word {l : List Char} (h : WordL l) : pyStripL l = l := by
  unfold pyStripL
  rw [dropWhile_eq_self_of_all (fun c hc => word_not_ws (h c hc))]
  rw [dropWhile_eq_self_of_all (fun c hc => word_not_ws (h c (List.mem_reverse.mp hc)))]
  exact List.reverse_reverse l

theorem dropWhile_head_false {p : Char → Bool} :
    ∀ {l : List Char} {c : Char} {t : List Char}, l.dropWhile p = c :: t → p c = false := by
  intro l
  induction l with
  | nil => intro c t h; exact absurd h (by simp)
  | cons a l' ih =>
    intro c t h
    rw [List.dropWhile_cons] at h
    by_cases hp : p a = true
    · rw [if_pos hp] at h
      exact ih h
    · rw [if_neg hp] at h
      cases h
      simpa using hp

theorem dropWhile_idem {p : Char → Bool} (l : List Char) :
    (l.dropWhile p).dropWhile p = l.dropWhile p := by
  cases h : l.dropWhile p with
  | nil => rfl
  | cons c t =>
    rw [List.dropWhile_cons, if_neg (by simp [dropWhile_head_false h])]

theorem dropTrail_decomp (l : List Char) :
    dropTrail l ++ (l.reverse.takeWhile isU).reverse = l
    ∧ ∀ c ∈ (l.reverse.takeWhile isU).reverse, c = '_' := by
  constructor
  · rw [dropTrail, ← List.reverse_append, List.takeWhile_append_dropWhile,
      List.reverse_reverse]
  · intro c hc
    have := List.mem_takeWhile_imp (List.mem_reverse.mp hc)
    simpa [isU] using this

theorem dropTrail_idem (l : List Char) : dropTrail (dropTrail l) = dropTrail l := by
  rw [dropTrail, dropTrail, List.reverse_reverse, dropWhile_idem]

theorem headOk_not_underscore {c : Char} (h : (c.isAlpha || isCJK c) = true) :
    isU c = false := by
  by_contra hu
  simp only [Bool.not_eq_false, isU, beq_iff_eq] at hu
  subst hu
  exact absurd h (by decide)

theorem dropLead_of_headOk {l : List Char} (h : headOkL l = true) :
    l.dropWhile isU = l := by
  cases l with
  | nil => rfl
  | cons c t =>
    simp only [headOkL] at h
    rw [List.dropWhile_cons, if_neg (by rw [headOk_not_underscore h]; simp)]

theorem map_word_id {l : List Char} (h : WordL l) :
    l.map (fun c => if pyIsWordChar c then c else '_') = l := by
  induction l with
  | nil => rfl
  | cons c t ih =>
    rw [List.map_cons, if_pos (h c (by simp)), ih (fun d hd => h d (by simp [hd]))]

theorem collapseU_id : ∀ {l : List Char}, NoDD l → collapseU l = l
  | [] => fun _ => rfl
  | [c] => fun _ => rfl
  | a :: b :: t => fun h => by
    have hab := (List.chain'_cons.mp h).1
    have ht : NoDD (b :: t) := (List.chain'_cons.mp h).2
    have hc : (a == '_' && b == '_') = false := by
      by_contra hcc
      simp only [Bool.not_eq_false, Bool.and_eq_true, beq_iff_eq] at hcc
      exact hab hcc
    simp only [collapseU, hc, Bool.false_eq_true, if_false]
    rw [collapseU_id ht]

theorem collapseU_head : ∀ (b : Char) (t : List Char), (b == '_') = false →
    ∃ t', collapseU (b :: t) = b :: t'
  | b, [], _ => ⟨[], rfl⟩
  | b, c :: t, h => by
    refine ⟨collapseU (c :: t), ?_⟩
    simp only [collapseU, h, Bool.false_and, Bool.false_eq_true, if_false]

theorem collapseU_noDD : ∀ (l : List Char), NoDD (collapseU l)
  | [] => List.chain'_nil
  | [c] => List.chain'_singleton c
  | a :: b :: t => by
    by_cases hab : (a == '_' && b == '_') = true
    · simp only [collapseU, hab, if_true]
      exact collapseU_noDD (b :: t)
    · simp only [collapseU, hab, Bool.false_eq_true, if_false]
      unfold NoDD
      rw [List.chain'_cons']
      refine ⟨?_, collapseU_noDD (b :: t)⟩
      intro y hy
      simp only [Bool.and_eq_true, beq_iff_eq] at hab
      intro ⟨ha, hb⟩
      by_cases hbu : (b == '_') = true
      · simp only [beq_iff_eq] at hbu
        exact hab ⟨ha, hbu⟩
      · obtain ⟨t', ht'⟩ := collapseU_head b t (by simpa using hbu)
        rw [ht'] at hy
        simp only [List.head?_cons, Option.mem_def, Option.some.injEq] at hy
        subst hy
        simp only [beq_iff_eq] at hbu
        exact hbu hb

theorem mem_collapseU : ∀ {l : List Char} {c : Char}, c ∈ collapseU l → c ∈ l
  | [], c => fun h => h
  | [a], c => fun h => h
  | a :: b :: t, c => fun h => by
    by_cases hab : (a == '_' && b == '_') = true
    · simp only [collapseU, hab, if_true] at h
      exact List.mem_cons_of_mem a (mem_collapseU h)
    · simp only [collapseU, hab, Bool.false_eq_true, if_false] at h
      rcases List.mem_cons.mp h with h | h
      · exact h ▸ List.mem_cons_self a (b :: t)
      · exact List.mem_cons_of_mem a (mem_collapseU h)

theorem pyReplaceNE_id {o : Char} {os new l : List Char} (h : o ∉ l) :
    pyReplaceNE o os new l = l := by
  induction l with
  | nil => simp [pyReplaceNE]
  | cons c rest ih =>
    have hoc : (o == c) = false := by
      by_contra hcc
      simp only [Bool.not_eq_false, beq_iff_eq] at hcc
      exact h (hcc ▸ List.mem_cons_self c rest)
    simp only [pyReplaceNE]
    rw [if_neg (by simp [List.isPrefixOf, hoc])]
    rw [ih (fun hm => h (List.mem_cons_of_mem c hm))]

theorem toList_mk (l : List Char) : (String.mk l).toList = l := rfl

theorem mk_isEmpty_false {l : List Char} (h : l ≠ []) :
    (String.mk l).isEmpty = false := by
  by_contra hemp
  simp only [Bool.not_eq_false] at hemp
  rw [String.isEmpty_iff] at hemp
  have h2 : String.mk l = String.mk [] := hemp
  injection h2 with h3
  exact h h3

theorem goodIdent_ne_nil {l : List Char} (h : GoodIdent l) : l ≠ [] := by
  obtain ⟨_, _, hh, _, _⟩ := h
  cases l with
  | nil => simp [headOkL] at hh
  | cons c t => simp

theorem pyStrip_mk_of_word {l : List Char} (hw : WordL l) :
    pyStrip (String.mk l) = String.mk l := by
  show String.mk (pyStripL l) = String.mk l
  rw [pyStripL_of_word hw]

theorem validate_of_good {l : List Char} (h : GoodIdent l) :
    validate_sql_identifier (String.mk l) = some (String.mk l) := by
  obtain ⟨hw, hnd, hh, hlen, hbl⟩ := h
  have hne : l ≠ [] := goodIdent_ne_nil ⟨hw, hnd, hh, hlen, hbl⟩
  unfold validate_sql_identifier
  rw [pyStrip_mk_of_word hw]
  rw [if_neg (by rw [mk_isEmpty_false hne]; simp)]
  rw [if_neg (by rw [toList_mk]; omega)]
  have hregex : identRegexOk l = true := by
    cases l with
    | nil => exact absurd rfl hne
    | cons c cs =>
      simp only [headOkL, Bool.or_eq_true] at hh
      simp only [identRegexOk, Bool.and_eq_true, Bool.or_eq_true]
      refine ⟨?_, List.all_eq_true.mpr (fun d hd => hw d (List.mem_cons_of_mem c hd))⟩
      rcases hh with hh | hh
      · exact Or.inl (Or.inl hh)
      · exact Or.inr hh
  rw [if_neg (by rw [toList_mk, hregex]; simp)]
  rw [if_neg (by show ¬(checkBlacklistL l = true); rw [hbl]; simp)]

theorem word_no_quote {l : List Char} (hw : WordL l) :
    '"' ∉ l ∧ squote ∉ l := by
  constructor
  · intro hm
    exact absurd (hw _ hm) (by decide)
  · intro hm
    exact absurd (hw _ hm) (by decide)

theorem safe_of_good {l : List Char} (h : GoodIdent l) :
    safe_sql_identifier (String.mk l) = some (String.mk l) := by
  unfold safe_sql_identifier
  rw [validate_of_good h]
  have hq := word_no_quote h.1
  have h1 : pyReplace (String.mk l) (String.mk ['"']) (String.mk ['"', '"'])
      = String.mk l := by
    show String.mk (pyReplaceNE '"' [] ['"', '"'] l) = String.mk l
    rw [pyReplaceNE_id hq.1]
  show some (pyReplace (pyReplace (String.mk l) (String.mk ['"']) (String.mk ['"', '"']))
    (String.mk [squote]) (String.mk [squote, squote])) = some (String.mk l)
  rw [h1]
  show some (String.mk (pyReplaceNE squote [] [squote, squote] l)) = some (String.mk l)
  rw [pyReplaceNE_id hq.2]

theorem cleanedCore_of_good {l : List Char} (hw : WordL l) (hnd : NoDD l)
    (hh : headOkL l = true) : cleanedCore l = dropTrail l := by
  unfold cleanedCore stripUnd
  rw [map_word_id hw, collapseU_id hnd, dropLead_of_headOk hh]

theorem dropTrail_headOk {l : List Char} (hh : headOkL l = true) :
    headOkL (dropTrail l) = true ∧ dropTrail l ≠ [] := by
  obtain ⟨heq, hall⟩ := dropTrail_decomp l
  cases hd : dropTrail l with
  | nil =>
    exfalso
    rw [hd, List.nil_append] at heq
    cases l with
    | nil => simp [headOkL] at hh
    | cons c t =>
      have hc : c = '_' := hall c (by rw [heq]; simp)
      rw [hc] at hh
      have hh2 : ('_'.isAlpha || isCJK '_') = true := hh
      exact absurd hh2 (by decide)
  | cons c t =>
    rw [hd, List.cons_append] at heq
    cases l with
    | nil => simp at heq
    | cons c' t' =>
      have : c = c' := (List.cons.injEq _ _ _ _ ▸ heq).1
      subst this
      simp only [headOkL] at hh ⊢
      exact ⟨hh, by simp⟩

theorem dropTrail_good {l : List Char} (h : GoodIdent l) :
    GoodIdent (dropTrail l) ∧ dropTrail (dropTrail l) = dropTrail l := by
  obtain ⟨hw, hnd, hh, hlen, hbl⟩ := h
  obtain ⟨heq, hall⟩ := dropTrail_decomp l
  refine ⟨⟨?_, ?_, (dropTrail_headOk hh).1, ?_, ?_⟩, dropTrail_idem l⟩
  · intro c hc
    exact hw c (by rw [← heq]; exact List.mem_append_left _ hc)
  · exact List.Chain'.prefix hnd ⟨_, heq⟩
  · have := congrArg List.length heq
    rw [List.length_append] at this
    omega
  · by_contra hbb
    simp only [Bool.not_eq_false] at hbb
    unfold checkBlacklistL at hbb hbl
    rw [List.any_eq_true] at hbb
    obtain ⟨p, hp, hcs⟩ := hbb
    have : containsSub p.toList (l.map Char.toUpper) = true := by
      rw [← heq, List.map_append]
      exact containsSub_append_right hcs
    rw [List.any_eq_false] at hbl
    exact hbl p hp this

theorem mk_toList (s : String) : String.mk s.toList = s := rfl

theorem map_word_out (l : List Char) :
    WordL (l.map (fun c => if pyIsWordChar c then c else '_')) := by
  intro c hc
  obtain ⟨d, _, hdc⟩ := List.mem_map.mp hc
  by_cases hw : pyIsWordChar d = true
  · rw [if_pos hw] at hdc
    exact hdc ▸ hw
  · rw [if_neg hw] at hdc
    rw [← hdc]
    decide

/-- The core pipeline output: word characters, no double underscore, and
no leading underscore. -/
theorem cleanedCore_shape (l : List Char) :
    WordL (cleanedCore l) ∧ NoDD (cleanedCore l)
    ∧ ∀ c t, cleanedCore l = c :: t → isU c = false := by
  unfold cleanedCore stripUnd
  have hw1 : WordL (collapseU (l.map (fun c => if pyIsWordChar c then c else '_'))) :=
    fun c hc => map_word_out l c (mem_collapseU hc)
  have hnd1 : NoDD (collapseU (l.map (fun c => if pyIsWordChar c then c else '_'))) :=
    collapseU_noDD _
  have hsuf : ∃ t, t ++ (collapseU (l.map (fun c => if pyIsWordChar c then c else '_'))).dropWhile isU
      = collapseU (l.map (fun c => if pyIsWordChar c then c else '_')) :=
    ⟨_, List.takeWhile_append_dropWhile isU _⟩
  have hw2 : WordL ((collapseU (l.map (fun c => if pyIsWordChar c then c else '_'))).dropWhile isU) := by
    intro c hc
    obtain ⟨t, ht⟩ := hsuf
    exact hw1 c (by rw [← ht]; exact List.mem_append_right t hc)
  have hnd2 : NoDD ((collapseU (l.map (fun c => if pyIsWordChar c then c else '_'))).dropWhile isU) := by
    obtain ⟨t, ht⟩ := hsuf
    exact List.Chain'.suffix hnd1 ⟨t, ht⟩
  obtain ⟨heq, hall⟩ := dropTrail_decomp
    ((collapseU (l.map (fun c => if pyIsWordChar c then c else '_'))).dropWhile isU)
  refine ⟨?_, ?_, ?_⟩
  · intro c hc
    exact hw2 c (by rw [← heq]; exact List.mem_append_left _ hc)
  · exact List.Chain'.prefix hnd2 ⟨_, heq⟩
  · intro c t hct
    rw [hct, List.cons_append] at heq
    exact dropWhile_head_false heq.symm

/-- Shape preservation through the `[:64]` truncation. -/
theorem take64_shape {l : List Char} (hw : WordL l) (hnd : NoDD l)
    (hh : headOkL l = true) :
    WordL (l.take 64) ∧ NoDD (l.take 64) ∧ headOkL (l.take 64) = true
    ∧ (l.take 64).length ≤ 64 := by
  refine ⟨?_, ?_, ?_, ?_⟩
  · intro c hc
    exact hw c (by rw [← List.take_append_drop 64 l]; exact List.mem_append_left _ hc)
  · exact List.Chain'.prefix hnd ⟨_, List.take_append_drop 64 l⟩
  · cases l with
    | nil => simp [headOkL] at hh
    | cons c t => rw [List.take_succ_cons]; exact hh
  · rw [List.length_take]
    exact Nat.min_le_left _ _

/-- The `clean_table_name` output shape for nonempty input. -/
theorem clean_table_shape (x : String) (hx : x.isEmpty = false) :
    WordL (clean_table_name x).toList ∧ NoDD (clean_table_name x).toList
    ∧ headOkL (clean_table_name x).toList = true
    ∧ (clean_table_name x).toList.length ≤ 64 := by
  obtain ⟨hw, hnd, hlead⟩ := cleanedCore_shape x.toList
  unfold clean_table_name
  rw [if_neg (by rw [hx]; simp)]
  rw [toList_mk]
  by_cases hok : headOkL (cleanedCore x.toList) = true
  · rw [if_pos hok]
    exact take64_shape hw hnd hok
  · rw [if_neg hok]
    apply take64_shape
    · intro c hc
      rcases List.mem_cons.mp hc with rfl | hc
      · decide
      · rcases List.mem_cons.mp hc with rfl | hc
        · decide
        · exact hw c hc
    · unfold NoDD
      rw [List.chain'_cons']
      refine ⟨by simp, ?_⟩
      rw [List.chain'_cons']
      refine ⟨?_, hnd⟩
      intro y hy
      cases hc : cleanedCore x.toList with
      | nil => rw [hc] at hy; simp at hy
      | cons c t =>
        rw [hc, List.head?_cons, Option.mem_def, Option.some.injEq] at hy
        subst hy
        intro ⟨_, hyu⟩
        have h5 := hlead c t hc
        rw [hyu] at h5
        exact absurd h5 (by decide)
    · rfl

/-- The `clean_column_core` output shape. -/
theorem clean_column_shape (x : String) :
    WordL (clean_column_core x).toList ∧ NoDD (clean_column_core x).toList
    ∧ headOkL (clean_column_core x).toList = true
    ∧ (clean_column_core x).toList.length ≤ 64 := by
  obtain ⟨hw, hnd, hlead⟩ := cleanedCore_shape (pyStripL x.toList)
  unfold clean_column_core
  rw [toList_mk]
  by_cases hok : headOkL (cleanedCore (pyStripL x.toList)) = true
  · rw [if_pos hok]
    exact take64_shape hw hnd hok
  · rw [if_neg hok]
    apply take64_shape
    · intro c hc
      simp only [List.mem_cons] at hc
      rcases hc with rfl | rfl | rfl | rfl | hc
      · decide
      · decide
      · decide
      · decide
      · exact hw c hc
    · unfold NoDD
      rw [List.chain'_cons']
      refine ⟨by simp, ?_⟩
      rw [List.chain'_cons']
      refine ⟨by simp, ?_⟩
      rw [List.chain'_cons']
      refine ⟨by simp, ?_⟩
      rw [List.chain'_cons']
      refine ⟨?_, hnd⟩
      intro y hy
      cases hc : cleanedCore (pyStripL x.toList) with
      | nil => rw [hc] at hy; simp at hy
      | cons c t =>
        rw [hc, List.head?_cons, Option.mem_def, Option.some.injEq] at hy
        subst hy
        intro ⟨_, hyu⟩
        have h5 := hlead c t hc
        rw [hyu] at h5
        exact absurd h5 (by decide)
    · rfl

theorem validate_some {y s : String} (h : validate_sql_identifier y = some s) :
    s = pyStrip y ∧ checkBlacklist (pyStrip y) = false := by
  unfold validate_sql_identifier at h
  split_ifs at h with h1 h2 h3 h4
  all_goals cases h
  exact ⟨rfl, by rw [← Bool.not_eq_true]; exact h4⟩

theorem pyStrip_self_of_word {s : String} (hw : WordL s.toList) :
    pyStrip s = s := by
  conv_lhs => rw [← mk_toList s]
  rw [pyStrip_mk_of_word hw, mk_toList]

theorem safe_some_clean {y s : String}
    (hw : WordL y.toList)
    (h : safe_sql_identifier y = some s) : s = y ∧ checkBlacklist y = false := by
  unfold safe_sql_identifier at h
  cases hv : validate_sql_identifier y with
  | none => rw [hv] at h; exact absurd h (by simp)
  | some v =>
    rw [hv] at h
    obtain ⟨hveq, hbl⟩ := validate_some hv
    rw [pyStrip_self_of_word hw] at hveq hbl
    subst hveq
    have h2 : s = pyReplace (pyReplace v (String.mk ['"']) (String.mk ['"', '"']))
        (String.mk [squote]) (String.mk [squote, squote]) := by
      have h3 : Option.map (fun w =>
          pyReplace (pyReplace w (String.mk ['"']) (String.mk ['"', '"']))
            (String.mk [squote]) (String.mk [squote, squote])) (some v) = some s := h
      simp only [Option.map_some', Option.some.injEq] at h3
      exact h3.symm
    have hq := word_no_quote hw
    have h4 : pyReplace v (String.mk ['"']) (String.mk ['"', '"']) = v := by
      conv_lhs => rw [← mk_toList v]
      show String.mk (pyReplaceNE '"' [] ['"', '"'] v.toList) = v
      rw [pyReplaceNE_id hq.1, mk_toList]
    rw [h4] at h2
    have h5 : pyReplace v (String.mk [squote]) (String.mk [squote, squote]) = v := by
      conv_lhs => rw [← mk_toList v]
      show String.mk (pyReplaceNE squote [] [squote, squote] v.toList) = v
      rw [pyReplaceNE_id hq.2, mk_toList]
    rw [h5] at h2
    exact ⟨h2, hbl⟩

/-- Every `sanitize_table_name` output is the default name, the hash
fallback, or a validated good identifier. -/
theorem sanT_cases (x : String) :
    sanitize_table_name x = "default_table"
    ∨ sanitize_table_name x = "table_" ++ hash8 x
    ∨ GoodIdent (sanitize_table_name x).toList := by
  unfold sanitize_table_name
  by_cases hx : x.isEmpty = true
  · rw [if_pos hx]
    exact Or.inl rfl
  · rw [if_neg hx]
    cases hs : safe_sql_identifier (clean_table_name x) with
    | none => exact Or.inr (Or.inl rfl)
    | some s =>
      right; right
      have hx' : x.isEmpty = false := by simpa using hx
      obtain ⟨hw, hnd, hh, hlen⟩ := clean_table_shape x hx'
      obtain ⟨hseq, hbl⟩ := safe_some_clean hw hs
      subst hseq
      exact ⟨hw, hnd, hh, hlen, hbl⟩

/-- Every `sanitize_column_name` output is the default name, the hash
fallback, or a validated good identifier. -/
theorem sanC_cases (x : String) :
    sanitize_column_name x = "default_column"
    ∨ sanitize_column_name x = "col_" ++ hash8 x
    ∨ GoodIdent (sanitize_column_name x).toList := by
  unfold sanitize_column_name
  by_cases hx : x.isEmpty = true
  · rw [if_pos hx]
    exact Or.inl rfl
  · rw [if_neg hx]
    cases hs : safe_sql_identifier (clean_column_core x) with
    | none => exact Or.inr (Or.inl rfl)
    | some s =>
      right; right
      obtain ⟨hw, hnd, hh, hlen⟩ := clean_column_shape x
      obtain ⟨hseq, hbl⟩ := safe_some_clean hw hs
      subst hseq
      exact ⟨hw, hnd, hh, hlen, hbl⟩

/-- A good identifier without trailing underscore is a fixed point of
`sanitize_table_name`. -/
theorem sanT_fix_good {l : List Char} (h : GoodIdent l) (ht : dropTrail l = l) :
    sanitize_table_name (String.mk l) = String.mk l := by
  have hne := goodIdent_ne_nil h
  unfold sanitize_table_name
  rw [if_neg (by rw [mk_isEmpty_false hne]; simp)]
  have hclean : clean_table_name (String.mk l) = String.mk l := by
    unfold clean_table_name
    rw [if_neg (by rw [mk_isEmpty_false hne]; simp)]
    rw [toList_mk, cleanedCore_of_good h.1 h.2.1 h.2.2.1, ht, if_pos h.2.2.1,
      List.take_of_length_le h.2.2.2.1]
  rw [hclean, safe_of_good h]

/-- On a good identifier (possibly with trailing underscores),
`sanitize_table_name` returns it with trailing underscores stripped. -/
theorem sanT_step_good {l : List Char} (h : GoodIdent l) :
    sanitize_table_name (String.mk l) = String.mk (dropTrail l) := by
  have hne := goodIdent_ne_nil h
  obtain ⟨hgood', _⟩ := dropTrail_good h
  unfold sanitize_table_name
  rw [if_neg (by rw [mk_isEmpty_false hne]; simp)]
  have hclean : clean_table_name (String.mk l) = String.mk (dropTrail l) := by
    unfold clean_table_name
    rw [if_neg (by rw [mk_isEmpty_false hne]; simp)]
    rw [toList_mk, cleanedCore_of_good h.1 h.2.1 h.2.2.1,
      if_pos (dropTrail_headOk h.2.2.1).1, List.take_of_length_le hgood'.2.2.2.1]
  rw [hclean, safe_of_good hgood']

/-- A good identifier without trailing underscore is a fixed point of
`sanitize_column_name`. -/
theorem sanC_fix_good {l : List Char} (h : GoodIdent l) (ht : dropTrail l = l) :
    sanitize_column_name (String.mk l) = String.mk l := by
  have hne := goodIdent_ne_nil h
  unfold sanitize_column_name
  rw [if_neg (by rw [mk_isEmpty_false hne]; simp)]
  have hclean : clean_column_core (String.mk l) = String.mk l := by
    unfold clean_column_core
    rw [toList_mk, pyStripL_of_word h.1, cleanedCore_of_good h.1 h.2.1 h.2.2.1, ht,
      if_pos h.2.2.1, List.take_of_length_le h.2.2.2.1]
  rw [hclean, safe_of_good h]

/-- On a good identifier, `sanitize_column_name` strips the trailing
underscores. -/
theorem sanC_step_good {l : List Char} (h : GoodIdent l) :
    sanitize_column_name (String.mk l) = String.mk (dropTrail l) := by
  have hne := goodIdent_ne_nil h
  obtain ⟨hgood', _⟩ := dropTrail_good h
  unfold sanitize_column_name
  rw [if_neg (by rw [mk_isEmpty_false hne]; simp)]
  have hclean : clean_column_core (String.mk l) = String.mk (dropTrail l) := by
    unfold clean_column_core
    rw [toList_mk, pyStripL_of_word h.1, cleanedCore_of_good h.1 h.2.1 h.2.2.1,
      if_pos (dropTrail_headOk h.2.2.1).1, List.take_of_length_le hgood'.2.2.2.1]
  rw [hclean, safe_of_good hgood']

/-- The 16 lowercase hex digits. -/
def hexChars : List Char :=
  ['0', '1', '2', '3', '4', '5', '6', '7', '8', '9',
   Char.ofNat 97, 'b', 'c', 'd', 'e', 'f']

/-- Their uppercase images. -/
def hexUpperChars : List Char :=
  ['0', '1', '2', '3', '4', '5', '6', '7', '8', '9', 'A', 'B', 'C', 'D', 'E', 'F']

theorem hexDigitChar_mem {n : Nat} (h : n < 16) : hexDigitChar n ∈ hexChars := by
  interval_cases n <;> decide

theorem hash8_chars (s : String) : ∀ c ∈ (hash8 s).toList, c ∈ hexChars := by
  intro c hc
  unfold hash8 at hc
  rw [toList_mk] at hc
  obtain ⟨i, _, hci⟩ := List.mem_map.mp hc
  rw [← hci]
  exact hexDigitChar_mem (Nat.mod_lt _ (by norm_num))

theorem hash8_length (s : String) : (hash8 s).toList.length = 8 := by
  unfold hash8
  rw [toList_mk, List.length_map, List.length_range]

theorem hex_word {c : Char} (h : c ∈ hexChars) : pyIsWordChar c = true := by
  fin_cases h <;> decide

theorem hex_not_underscore {c : Char} (h : c ∈ hexChars) : isU c = false := by
  fin_cases h <;> decide

theorem hex_upper_mem {c : Char} (h : c ∈ hexChars) :
    Char.toUpper c ∈ hexUpperChars := by
  fin_cases h <;> decide

theorem noDD_of_no_underscore {l : List Char} (h : ∀ c ∈ l, isU c = false) :
    NoDD l := by
  induction l with
  | nil => exact List.chain'_nil
  | cons c t ih =>
    unfold NoDD
    rw [List.chain'_cons']
    refine ⟨?_, ih (fun d hd => h d (List.mem_cons_of_mem c hd))⟩
    intro y _
    intro ⟨hc, _⟩
    have := h c (List.mem_cons_self c t)
    rw [hc] at this
    exact absurd this (by decide)

theorem containsSub_false_of_missing {p l : List Char} (c : Char)
    (hcp : c ∈ p) (hcl : c ∉ l) : containsSub p l = false := by
  by_contra h
  simp only [Bool.not_eq_false] at h
  exact hcl (mem_of_containsSub h c hcp)

theorem not_mem_upper_hash {pre hex : List Char}
    (hhex : ∀ c ∈ hex, c ∈ hexChars) (c : Char)
    (h1 : c ∉ pre.map Char.toUpper) (h2 : c ∉ hexUpperChars) :
    c ∉ ((pre ++ hex).map Char.toUpper) := by
  intro hm
  rw [List.map_append] at hm
  rcases List.mem_append.mp hm with hm | hm
  · exact h1 hm
  · obtain ⟨d, hd, hdc⟩ := List.mem_map.mp hm
    exact h2 (hdc ▸ hex_upper_mem (hhex d hd))

/-- The hash fallback `table_<hex>` never contains a blacklisted pattern:
each pattern has a character outside `TABLE_` and the hex digits, except
`DELETE`, whose `L` can only sit at position 3 where `D` cannot precede
it. -/
theorem table_hash_blacklist (hex : List Char) (hhex : ∀ c ∈ hex, c ∈ hexChars) :
    checkBlacklistL ("table_".toList ++ hex) = false := by
  unfold checkBlacklistL
  rw [List.any_eq_false]
  intro p hp
  fin_cases hp
  all_goals first
    | (rw [containsSub_false_of_missing 'R' (by decide)
        (not_mem_upper_hash hhex 'R' (by decide) (by decide))]
       exact Bool.false_ne_true)
    | (rw [containsSub_false_of_missing 'U' (by decide)
        (not_mem_upper_hash hhex 'U' (by decide) (by decide))]
       exact Bool.false_ne_true)
    | (rw [containsSub_false_of_missing 'I' (by decide)
        (not_mem_upper_hash hhex 'I' (by decide) (by decide))]
       exact Bool.false_ne_true)
    | (rw [containsSub_false_of_missing 'S' (by decide)
        (not_mem_upper_hash hhex 'S' (by decide) (by decide))]
       exact Bool.false_ne_true)
    | (rw [containsSub_false_of_missing 'X' (by decide)
        (not_mem_upper_hash hhex 'X' (by decide) (by decide))]
       exact Bool.false_ne_true)
    | (rw [containsSub_false_of_missing 'V' (by decide)
        (not_mem_upper_hash hhex 'V' (by decide) (by decide))]
       exact Bool.false_ne_true)
    | (rw [containsSub_false_of_missing 'M' (by decide)
        (not_mem_upper_hash hhex 'M' (by decide) (by decide))]
       exact Bool.false_ne_true)
    | (rw [containsSub_false_of_missing 'O' (by decide)
        (not_mem_upper_hash hhex 'O' (by decide) (by decide))]
       exact Bool.false_ne_true)
    | (rw [containsSub_false_of_missing 'Q' (by decide)
        (not_mem_upper_hash hhex 'Q' (by decide) (by decide))]
       exact Bool.false_ne_true)
    | (rw [containsSub_false_of_missing ';' (by decide)
        (not_mem_upper_hash hhex ';' (by decide) (by decide))]
       exact Bool.false_ne_true)
    | (rw [containsSub_false_of_missing '-' (by decide)
        (not_mem_upper_hash hhex '-' (by decide) (by decide))]
       exact Bool.false_ne_true)
    | (rw [containsSub_false_of_missing '/' (by decide)
        (not_mem_upper_hash hhex '/' (by decide) (by decide))]
       exact Bool.false_ne_true)
    | (rw [containsSub_false_of_missing '*' (by decide)
        (not_mem_upper_hash hhex '*' (by decide) (by decide))]
       exact Bool.false_ne_true)
    | (rw [containsSub_false_of_missing ' ' (by decide)
        (not_mem_upper_hash hhex ' ' (by decide) (by decide))]
       exact Bool.false_ne_true)
    | (intro hcs
       rw [List.map_append] at hcs
       have hpre : ("table_".toList).map Char.toUpper = ['T', 'A', 'B', 'L', 'E', '_'] := by
         decide
       rw [hpre] at hcs
       simp only [List.cons_append, List.nil_append, containsSub, List.isPrefixOf,
         Bool.or_eq_true, Bool.and_eq_true, beq_iff_eq] at hcs
       rcases hcs with ⟨h1, _⟩ | ⟨h1, _⟩ | ⟨h1, _⟩ | ⟨h1, _⟩ | ⟨h1, _⟩ | ⟨h1, _⟩ | hcs
       · exact absurd h1 (by decide)
       · exact absurd h1 (by decide)
       · exact absurd h1 (by decide)
       · exact absurd h1 (by decide)
       · exact absurd h1 (by decide)
       · exact absurd h1 (by decide)
       · have hL := mem_of_containsSub (by
            simpa [containsSub, List.isPrefixOf] using hcs) 'L' (by decide)
         obtain ⟨d, hd, hdL⟩ := List.mem_map.mp hL
         have hmem := hex_upper_mem (hhex d hd)
         rw [hdL] at hmem
         exact absurd hmem (by decide))

/-- The hash fallback `col_<hex>` never contains a blacklisted pattern:
every pattern has a character outside `COL_` and the hex digits. -/
theorem col_hash_blacklist (hex : List Char) (hhex : ∀ c ∈ hex, c ∈ hexChars) :
    checkBlacklistL ("col_".toList ++ hex) = false := by
  unfold checkBlacklistL
  rw [List.any_eq_false]
  intro p hp
  fin_cases hp
  all_goals first
    | (rw [containsSub_false_of_missing 'R' (by decide)
        (not_mem_upper_hash hhex 'R' (by decide) (by decide))]
       exact Bool.false_ne_true)
    | (rw [containsSub_false_of_missing 'T' (by decide)
        (not_mem_upper_hash hhex 'T' (by decide) (by decide))]
       exact Bool.false_ne_true)
    | (rw [containsSub_false_of_missing 'U' (by decide)
        (not_mem_upper_hash hhex 'U' (by decide) (by decide))]
       exact Bool.false_ne_true)
    | (rw [containsSub_false_of_missing 'I' (by decide)
        (not_mem_upper_hash hhex 'I' (by decide) (by decide))]
       exact Bool.false_ne_true)
    | (rw [containsSub_false_of_missing 'S' (by decide)
        (not_mem_upper_hash hhex 'S' (by decide) (by decide))]
       exact Bool.false_ne_true)
    | (rw [containsSub_false_of_missing 'X' (by decide)
        (not_mem_upper_hash hhex 'X' (by decide) (by decide))]
       exact Bool.false_ne_true)
    | (rw [containsSub_false_of_missing 'V' (by decide)
        (not_mem_upper_hash hhex 'V' (by decide) (by decide))]
       exact Bool.false_ne_true)
    | (rw [containsSub_false_of_missing 'M' (by decide)
        (not_mem_upper_hash hhex 'M' (by decide) (by decide))]
       exact Bool.false_ne_true)
    | (rw [containsSub_false_of_missing 'Q' (by decide)
        (not_mem_upper_hash hhex 'Q' (by decide) (by decide))]
       exact Bool.false_ne_true)
    | (rw [containsSub_false_of_missing ';' (by decide)
        (not_mem_upper_hash hhex ';' (by decide) (by decide))]
       exact Bool.false_ne_true)
    | (rw [containsSub_false_of_missing '-' (by decide)
        (not_mem_upper_hash hhex '-' (by decide) (by decide))]
       exact Bool.false_ne_true)
    | (rw [containsSub_false_of_missing '/' (by decide)
        (not_mem_upper_hash hhex '/' (by decide) (by decide))]
       exact Bool.false_ne_true)
    | (rw [containsSub_false_of_missing '*' (by decide)
        (not_mem_upper_hash hhex '*' (by decide) (by decide))]
       exact Bool.false_ne_true)
    | (rw [containsSub_false_of_missing ' ' (by decide)
        (not_mem_upper_hash hhex ' ' (by decide) (by decide))]
       exact Bool.false_ne_true)

theorem toList_append (a b : String) : (a ++ b).toList = a.toList ++ b.toList :=
  String.data_append a b

theorem mk_append (a b : String) : String.mk (a.toList ++ b.toList) = a ++ b := rfl

theorem wordL_append {a b : List Char} (ha : WordL a) (hb : WordL b) :
    WordL (a ++ b) := by
  intro c hc
  rcases List.mem_append.mp hc with h | h
  · exact ha c h
  · exact hb c h

theorem headOkL_append {pre : List Char} (hex : List Char)
    (hh : headOkL pre = true) : headOkL (pre ++ hex) = true := by
  cases pre with
  | nil => simp [headOkL] at hh
  | cons c t => exact hh

theorem noDD_append_hex {pre hex : List Char} (hnd : NoDD pre)
    (hhex : ∀ c ∈ hex, c ∈ hexChars) : NoDD (pre ++ hex) := by
  unfold NoDD
  rw [List.chain'_append]
  refine ⟨hnd, noDD_of_no_underscore (fun c hc => hex_not_underscore (hhex c hc)), ?_⟩
  intro x _ y hy
  intro ⟨_, hy'⟩
  have hm : y ∈ hex := List.mem_of_mem_head? hy
  have := hex_not_underscore (hhex y hm)
  rw [hy'] at this
  exact absurd this (by decide)

theorem dropTrail_append_hex {pre hex : List Char}
    (hhex : ∀ c ∈ hex, c ∈ hexChars) (hne : hex ≠ []) :
    dropTrail (pre ++ hex) = pre ++ hex := by
  unfold dropTrail
  rw [List.reverse_append]
  cases hr : hex.reverse with
  | nil => exact absurd (List.reverse_eq_nil_iff.mp hr) hne
  | cons c t =>
    have hc : c ∈ hex := List.mem_reverse.mp (by rw [hr]; simp)
    rw [List.cons_append, List.dropWhile_cons,
      if_neg (by rw [hex_not_underscore (hhex c hc)]; simp)]
    rw [← List.cons_append, ← hr, ← List.reverse_append, List.reverse_reverse]

/-- A hash fallback `pre ++ hex` built from a good short prefix and eight
hex digits is a good identifier fixed under trailing-underscore
stripping. -/
theorem hash_pre_good (pre hex : List Char)
    (hhex : ∀ c ∈ hex, c ∈ hexChars) (hhl : hex.length = 8)
    (hw : WordL pre) (hnd : NoDD pre) (hh : headOkL pre = true)
    (hlen : pre.length + 8 ≤ 64)
    (hbl : checkBlacklistL (pre ++ hex) = false) :
    GoodIdent (pre ++ hex) ∧ dropTrail (pre ++ hex) = pre ++ hex := by
  have hne : hex ≠ [] := by
    intro h
    rw [h] at hhl
    simp at hhl
  refine ⟨⟨wordL_append hw (fun c hc => hex_word (hhex c hc)),
    noDD_append_hex hnd hhex, headOkL_append hex hh, ?_, hbl⟩,
    dropTrail_append_hex hhex hne⟩
  rw [List.length_append, hhl]
  exact hlen

/-- Executable check for `NoDD` on concrete lists. -/
def noDDb : List Char → Bool
  | [] => true
  | [_] => true
  | a :: b :: t => !(a == '_' && b == '_') && noDDb (b :: t)

theorem noDD_of_b : ∀ {l : List Char}, noDDb l = true → NoDD l := by
  intro l
  induction l with
  | nil => intro _; exact List.chain'_nil
  | cons a t ih =>
    cases t with
    | nil => intro _; exact List.chain'_singleton a
    | cons b t' =>
      intro h
      simp only [noDDb, Bool.and_eq_true] at h
      unfold NoDD
      rw [List.chain'_cons]
      refine ⟨?_, ih h.2⟩
      intro ⟨ha, hb⟩
      subst ha
      subst hb
      exact absurd h.1 (by decide)

/-- The table hash fallback is a fixed point of `sanitize_table_name`. -/
theorem sanT_hash_fixed (x : String) :
    sanitize_table_name ("table_" ++ hash8 x) = "table_" ++ hash8 x := by
  obtain ⟨hg, ht⟩ := hash_pre_good "table_".toList (hash8 x).toList
    (hash8_chars x) (hash8_length x) (by unfold WordL; decide)
    (noDD_of_b (by decide)) (by decide)
    (by decide) (table_hash_blacklist (hash8 x).toList (hash8_chars x))
  have he : "table_" ++ hash8 x
      = String.mk ("table_".toList ++ (hash8 x).toList) := (mk_append _ _).symm
  rw [he, sanT_fix_good hg ht]

/-- The column hash fallback is a fixed point of `sanitize_column_name`. -/
theorem sanC_hash_fixed (x : String) :
    sanitize_column_name ("col_" ++ hash8 x) = "col_" ++ hash8 x := by
  obtain ⟨hg, ht⟩ := hash_pre_good "col_".toList (hash8 x).toList
    (hash8_chars x) (hash8_length x) (by unfold WordL; decide)
    (noDD_of_b (by decide)) (by decide)
    (by decide) (col_hash_blacklist (hash8 x).toList (hash8_chars x))
  have he : "col_" ++ hash8 x
      = String.mk ("col_".toList ++ (hash8 x).toList) := (mk_append _ _).symm
  rw [he, sanC_fix_good hg ht]

theorem sanT_default_fixed :
    sanitize_table_name "default_table" = "default_table" := by
  have hg : GoodIdent "default_table".toList :=
    ⟨by unfold WordL; decide, noDD_of_b (by decide), by decide, by decide, by decide⟩
  exact sanT_fix_good hg (by decide)

theorem sanC_default_fixed :
    sanitize_column_name "default_column" = "default_column" := by
  have hg : GoodIdent "default_column".toList :=
    ⟨by unfold WordL; decide, noDD_of_b (by decide), by decide, by decide, by decide⟩
  exact sanC_fix_good hg (by decide)

/-- Every `sanitize_table_name` output is nonempty, clean of the
blacklist, and stable from the second application on. -/
theorem sanT_props (x : String) :
    (sanitize_table_name x).toList ≠ []
    ∧ checkBlacklist (sanitize_table_name x) = false
    ∧ sanitize_table_name (sanitize_table_name (sanitize_table_name x))
      = sanitize_table_name (sanitize_table_name x) := by
  rcases sanT_cases x with h | h | h
  · rw [h]
    exact ⟨by decide, by decide, by rw [sanT_default_fixed, sanT_default_fixed]⟩
  · rw [h]
    refine ⟨?_, ?_, by rw [sanT_hash_fixed, sanT_hash_fixed]⟩
    · intro hc
      have hlc := congrArg List.length hc
      rw [toList_append, List.length_append, hash8_length] at hlc
      simp only [List.length_nil] at hlc
      omega
    · show checkBlacklistL ("table_" ++ hash8 x).toList = false
      rw [toList_append]
      exact table_hash_blacklist (hash8 x).toList (hash8_chars x)
  · refine ⟨goodIdent_ne_nil h, h.2.2.2.2, ?_⟩
    have h1 := sanT_step_good h
    rw [mk_toList] at h1
    obtain ⟨hg2, hfix⟩ := dropTrail_good h
    rw [h1, sanT_fix_good hg2 hfix]

/-- Every `sanitize_column_name` output is nonempty, clean of the
blacklist, and stable from the second application on. -/
theorem sanC_props (x : String) :
    (sanitize_column_name x).toList ≠ []
    ∧ checkBlacklist (sanitize_column_name x) = false
    ∧ sanitize_column_name (sanitize_column_name (sanitize_column_name x))
      = sanitize_column_name (sanitize_column_name x) := by
  rcases sanC_cases x with h | h | h
  · rw [h]
    exact ⟨by decide, by decide, by rw [sanC_default_fixed, sanC_default_fixed]⟩
  · rw [h]
    refine ⟨?_, ?_, by rw [sanC_hash_fixed, sanC_hash_fixed]⟩
    · intro hc
      have hlc := congrArg List.length hc
      rw [toList_append, List.length_append, hash8_length] at hlc
      simp only [List.length_nil] at hlc
      omega
    · show checkBlacklistL ("col_" ++ hash8 x).toList = false
      rw [toList_append]
      exact col_hash_blacklist (hash8 x).toList (hash8_chars x)
  · refine ⟨goodIdent_ne_nil h, h.2.2.2.2, ?_⟩
    have h1 := sanC_step_good h
    rw [mk_toList] at h1
    obtain ⟨hg2, hfix⟩ := dropTrail_good h
    rw [h1, sanC_fix_good hg2 hfix]

/-- **C2** counterexample to idempotence: the input `?` is cleaned to
`T_` (resp. `col_`), whose trailing underscore a second application
strips, so `sanitize(sanitize(x)) = sanitize(x)` fails at `x = "?"`. -/
theorem sanitize_idempotent_counterexample :
    sanitize_table_name (sanitize_table_name "?") ≠ sanitize_table_name "?"
    ∧ sanitize_column_name (sanitize_column_name "?")
      ≠ sanitize_column_name "?" := by
  have hgT : GoodIdent "T_".toList :=
    ⟨by unfold WordL; decide, noDD_of_b (by decide), by decide, by decide, by decide⟩
  have hgC : GoodIdent "col_".toList :=
    ⟨by unfold WordL; decide, noDD_of_b (by decide), by decide, by decide, by decide⟩
  have h1 : sanitize_table_name "?" = "T_" := by
    unfold sanitize_table_name
    rw [if_neg (by decide)]
    have hclean : clean_table_name "?" = "T_" := by decide
    rw [hclean]
    have hs : safe_sql_identifier "T_" = some "T_" := safe_of_good hgT
    rw [hs]
  have h2 : sanitize_table_name "T_" = "T" := sanT_step_good hgT
  have h3 : sanitize_column_name "?" = "col_" := by
    unfold sanitize_column_name
    rw [if_neg (by decide)]
    have hclean : clean_column_core "?" = "col_" := by decide
    rw [hclean]
    have hs : safe_sql_identifier "col_" = some "col_" := safe_of_good hgC
    rw [hs]
  have h4 : sanitize_column_name "col_" = "col" := sanC_step_good hgC
  refine ⟨?_, ?_⟩
  · rw [h1, h2]
    decide
  · rw [h3, h4]
    decide

/-- **C2** (corrected): both sanitizers are total — every input yields a
nonempty identifier string and no code path raises — and every output is
free of the blacklisted SQL keywords and statement terminators; but
sanitization is only eventually idempotent: it stabilizes from the
second application on (`sanitize³ = sanitize²`), while
`sanitize(sanitize(x)) = sanitize(x)` itself fails for some inputs. -/
theorem sanitize_total_blacklist_stable (x : String) :
    (sanitize_table_name x).toList ≠ []
    ∧ (sanitize_column_name x).toList ≠ []
    ∧ checkBlacklist (sanitize_table_name x) = false
    ∧ checkBlacklist (sanitize_column_name x) = false
    ∧ sanitize_table_name (sanitize_table_name (sanitize_table_name x))
      = sanitize_table_name (sanitize_table_name x)
    ∧ sanitize_column_name (sanitize_column_name (sanitize_column_name x))
      = sanitize_column_name (sanitize_column_name x) := by
  obtain ⟨ht1, ht2, ht3⟩ := sanT_props x
  obtain ⟨hc1, hc2, hc3⟩ := sanC_props x
  exact ⟨ht1, hc1, ht2, hc2, ht3, hc3⟩
